import Mathlib

/-!
Verification of the methodray type-inference core: a shallow embedding of the
Rust sources (type algebra, graph store, propagation, constraint boxes,
change sets, scheduler, method registry, scope manager, RBS converter,
signature cache and the AST installer) together with theorems settling the
specification claims.

Machine integers (`usize`, `u8`) are modelled as `Nat`: the ids are allocated
sequentially from 0 and the reschedule counter is bounded by 3, so no overflow
behaviour is observable in the modelled range.
-/

namespace Methodray

/-- `types.rs` `Type`: the tagged union of type shapes.  A `QualifiedName` is
modelled by its full colon-separated path string, which is faithful because
`QualifiedName` equality and hashing in the source are string identity of the
full path.  Equality is the structural (derived) equality, mirroring the
derived `PartialEq`/`Eq` of the Rust enum. -/
inductive Ty : Type
  | instanceType (name : String)
  | generic (name : String) (typeArgs : List Ty)
  | singleton (name : String)
  | nil
  | union (types : List Ty)
  | bot

instance : Inhabited Ty := ⟨Ty.bot⟩

mutual

/-- Structural decidable equality for `Ty` (the derived `PartialEq`/`Eq` of
the Rust enum: component-wise, and list equality on `Vec` fields). -/
def Ty.decEq : (a b : Ty) → Decidable (a = b)
  | .instanceType x, .instanceType y =>
      if h : x = y then .isTrue (by rw [h])
      else .isFalse (fun he => h (Ty.instanceType.inj he))
  | .generic x xs, .generic y ys =>
      if h : x = y then
        match Ty.decEqList xs ys with
        | .isTrue h2 => .isTrue (by rw [h, h2])
        | .isFalse h2 => .isFalse (fun he => h2 (Ty.generic.inj he).2)
      else .isFalse (fun he => h (Ty.generic.inj he).1)
  | .singleton x, .singleton y =>
      if h : x = y then .isTrue (by rw [h])
      else .isFalse (fun he => h (Ty.singleton.inj he))
  | .nil, .nil => .isTrue rfl
  | .union xs, .union ys =>
      match Ty.decEqList xs ys with
      | .isTrue h2 => .isTrue (by rw [h2])
      | .isFalse h2 => .isFalse (fun he => h2 (Ty.union.inj he))
  | .bot, .bot => .isTrue rfl
  | .instanceType _, .generic _ _ | .instanceType _, .singleton _
  | .instanceType _, .nil | .instanceType _, .union _ | .instanceType _, .bot
  | .generic _ _, .instanceType _ | .generic _ _, .singleton _
  | .generic _ _, .nil | .generic _ _, .union _ | .generic _ _, .bot
  | .singleton _, .instanceType _ | .singleton _, .generic _ _
  | .singleton _, .nil | .singleton _, .union _ | .singleton _, .bot
  | .nil, .instanceType _ | .nil, .generic _ _
  | .nil, .singleton _ | .nil, .union _ | .nil, .bot
  | .union _, .instanceType _ | .union _, .generic _ _
  | .union _, .singleton _ | .union _, .nil | .union _, .bot
  | .bot, .instanceType _ | .bot, .generic _ _
  | .bot, .singleton _ | .bot, .nil | .bot, .union _ =>
      .isFalse (fun he => Ty.noConfusion he)

/-- Decidable equality for lists of `Ty`. -/
def Ty.decEqList : (as bs : List Ty) → Decidable (as = bs)
  | [], [] => .isTrue rfl
  | [], _ :: _ => .isFalse (fun h => List.noConfusion h)
  | _ :: _, [] => .isFalse (fun h => List.noConfusion h)
  | a :: as, b :: bs =>
      match Ty.decEq a b with
      | .isTrue h1 =>
          match Ty.decEqList as bs with
          | .isTrue h2 => .isTrue (by rw [h1, h2])
          | .isFalse h2 => .isFalse (fun he => h2 (List.cons.inj he).2)
      | .isFalse h1 => .isFalse (fun he => h1 (List.cons.inj he).1)

end

instance : DecidableEq Ty := Ty.decEq

namespace Ty

/-- `Type::string()` convenience constructor. -/
def string : Ty := .instanceType "String"

/-- `Type::integer()` convenience constructor. -/
def integer : Ty := .instanceType "Integer"

/-- `Type::float()` convenience constructor. -/
def float : Ty := .instanceType "Float"

/-- `Type::symbol()` convenience constructor. -/
def symbol : Ty := .instanceType "Symbol"

/-- `Type::array()` convenience constructor. -/
def array : Ty := .instanceType "Array"

/-- `Type::hash()` convenience constructor. -/
def hashT : Ty := .instanceType "Hash"

/-- `Type::array_of(t)`: `Array[t]`. -/
def array_of (t : Ty) : Ty := .generic "Array" [t]

/-- `Type::hash_of(k, v)`: `Hash[k, v]`. -/
def hash_of (k v : Ty) : Ty := .generic "Hash" [k, v]

/-- `Type::type_args`: the argument list of a generic type. -/
def type_args : Ty → Option (List Ty)
  | .generic _ args => some args
  | _ => none

/-- `Type::base_class_name`: the full qualified name without type arguments
(the source's `qualified_name().map(full_name)`). -/
def base_class_name : Ty → Option String
  | .instanceType n => some n
  | .generic n _ => some n
  | .singleton n => some n
  | _ => none

end Ty

/-- `VertexId(usize)` in `graph/vertex.rs`. -/
abbrev VertexId := Nat

/-- `BoxId(usize)` in `graph/box.rs`. -/
abbrev BoxId := Nat

/-- `graph/vertex.rs` `Source`: a vertex whose type is fixed at creation. -/
structure Source where
  id : VertexId
  ty : Ty
  deriving DecidableEq

/-- `graph/vertex.rs` `Vertex`.  The `HashMap<Type, HashSet<VertexId>>` of
type keys to provenance sources is modelled as an association list with the
provenance set as a duplicate-free list; `HashSet<VertexId>` of successors is
a duplicate-free list.  Insertion order is kept, which refines every hash
iteration order the claims depend on (the claims only inspect membership). -/
structure Vertex where
  id : VertexId
  types : List (Ty × List VertexId)
  next_vtxs : List VertexId
  deriving DecidableEq

namespace Vertex

/-- `Vertex::new`. -/
def new (id : VertexId) : Vertex := ⟨id, [], []⟩

/-- `Vertex::add_next`: `HashSet::insert` of a successor id. -/
def add_next (v : Vertex) (next_id : VertexId) : Vertex :=
  if next_id ∈ v.next_vtxs then v else { v with next_vtxs := v.next_vtxs ++ [next_id] }

/-- The list of type keys currently present in the vertex map. -/
def typeKeys (v : Vertex) : List Ty := v.types.map Prod.fst

/-- Insert `src_id` into the provenance set stored for the (present) key `ty`:
the `sources.insert(src_id)` branch of `on_type_added`. -/
def addSourceTo (types : List (Ty × List VertexId)) (ty : Ty) (src_id : VertexId) :
    List (Ty × List VertexId) :=
  match types with
  | [] => []
  | (t, srcs) :: rest =>
      if t = ty then
        (t, if src_id ∈ srcs then srcs else srcs ++ [src_id]) :: rest
      else
        (t, srcs) :: addSourceTo rest ty src_id

/-- One iteration of the `for ty in added_types` loop of
`Vertex::on_type_added`: threads the updated map and the accumulated list of
newly added types. -/
def onTypeAddedLoop (v : Vertex) (src_id : VertexId) :
    List Ty → Vertex × List Ty
  | [] => (v, [])
  | ty :: rest =>
      if ty ∈ v.typeKeys then
        -- Type already exists: add Source to its provenance set
        let v' : Vertex := { v with types := addSourceTo v.types ty src_id }
        onTypeAddedLoop v' src_id rest
      else
        -- New type: add type and record Source
        let v' : Vertex := { v with types := v.types ++ [(ty, [src_id])] }
        let (v'', added) := onTypeAddedLoop v' src_id rest
        (v'', ty :: added)

/-- `Vertex::on_type_added`: returns the updated vertex together with the list
of `(next_id, newly_added_types)` propagation targets. -/
def on_type_added (v : Vertex) (src_id : VertexId) (added_types : List Ty) :
    Vertex × List (VertexId × List Ty) :=
  let (v', new_added_types) := onTypeAddedLoop v src_id added_types
  if new_added_types.isEmpty then
    (v', [])
  else
    (v', v'.next_vtxs.map (fun next_id => (next_id, new_added_types)))

end Vertex

/-- First-match association-list lookup, modelling `HashMap::get`. -/
def lookupA {α β : Type} [DecidableEq α] : List (α × β) → α → Option β
  | [], _ => none
  | (k, v) :: rest, key => if k = key then some v else lookupA rest key

/-- Replace-or-append association-list update, modelling `HashMap::insert`. -/
def insertA {α β : Type} [DecidableEq α] : List (α × β) → α → β → List (α × β)
  | [], key, v => [(key, v)]
  | (k, w) :: rest, key, v =>
      if k = key then (key, v) :: rest else (k, w) :: insertA rest key v

/-- First-match association-list removal, modelling `HashMap::remove`. -/
def removeA {α β : Type} [DecidableEq α] : List (α × β) → α → List (α × β)
  | [], _ => []
  | (k, w) :: rest, key => if k = key then rest else (k, w) :: removeA rest key

/-- `source_map.rs` `SourceLocation` as consumed by the graph layer: a
resolved `(line, column, length)` position. -/
structure SourceLocation where
  line : Nat
  column : Nat
  length : Nat
  deriving DecidableEq

/-- Method information.  `env/global_env.rs` declares `MethodInfo` with only
`return_type` while `env/method_registry.rs` declares it with
`return_type` and `block_param_types`, and `graph/box.rs` reads
`block_param_types` from the record returned by `GlobalEnv::resolve_method`;
the record is therefore modelled with both fields, `register_builtin_method`
filling `block_param_types` with `none`. -/
structure MethodInfo where
  return_type : Ty
  block_param_types : Option (List Ty)
  deriving DecidableEq

/-- `env/global_env.rs` `TypeError`, with the fields that
`MethodCallBox::run` supplies when recording an undefined method: receiver
type, method name and optional source location. -/
structure TypeError where
  receiver_type : Ty
  method_name : String
  location : Option SourceLocation
  deriving DecidableEq

/-- `graph/change_set.rs` `ChangeSet`. -/
structure ChangeSet where
  new_edges : List (VertexId × VertexId)
  edges : List (VertexId × VertexId)
  reschedule_boxes : List BoxId
  deriving DecidableEq

/-- `graph/change_set.rs` `EdgeUpdate`. -/
inductive EdgeUpdate : Type
  | add (src dst : VertexId)
  | remove (src dst : VertexId)
  deriving DecidableEq

namespace ChangeSet

/-- `ChangeSet::new`. -/
def new : ChangeSet := ⟨[], [], []⟩

/-- `ChangeSet::add_edge`: push a pending edge. -/
def add_edge (cs : ChangeSet) (src dst : VertexId) : ChangeSet :=
  { cs with new_edges := cs.new_edges ++ [(src, dst)] }

/-- `ChangeSet::reschedule`: push a box id onto the reschedule list. -/
def reschedule (cs : ChangeSet) (box_id : BoxId) : ChangeSet :=
  { cs with reschedule_boxes := cs.reschedule_boxes ++ [box_id] }

/-- `ChangeSet::take_reschedule_boxes`: `mem::take` of the reschedule list. -/
def take_reschedule_boxes (cs : ChangeSet) : List BoxId × ChangeSet :=
  (cs.reschedule_boxes, { cs with reschedule_boxes := [] })

/-- The `sort_by_key(|(src, dst)| (src.0, dst.0))` ordering of `reinstall`. -/
def edgeLe (a b : VertexId × VertexId) : Bool :=
  a.1 < b.1 || (a.1 = b.1 && a.2 ≤ b.2)

/-- Insertion step of the sort used by `reinstall`. -/
def insertEdgeSorted (x : VertexId × VertexId) :
    List (VertexId × VertexId) → List (VertexId × VertexId)
  | [] => [x]
  | y :: ys => if edgeLe x y then x :: y :: ys else y :: insertEdgeSorted x ys

/-- Sorting by `(src, dst)`, modelling `Vec::sort_by_key`. -/
def sortEdges (l : List (VertexId × VertexId)) : List (VertexId × VertexId) :=
  l.foldr insertEdgeSorted []

/-- `Vec::dedup`: removal of consecutive duplicates. -/
def dedupAdj {α : Type} [DecidableEq α] : List α → List α
  | [] => []
  | [x] => [x]
  | x :: y :: rest =>
      if x = y then dedupAdj (y :: rest) else x :: dedupAdj (y :: rest)

/-- `ChangeSet::reinstall`: sort and dedup the pending edges, emit `Add`
updates for edges not in the committed baseline and `Remove` updates for
baseline edges no longer pending, then commit. -/
def reinstall (cs : ChangeSet) : List EdgeUpdate × ChangeSet :=
  let sorted := dedupAdj (sortEdges cs.new_edges)
  let adds := (sorted.filter (fun e => e ∉ cs.edges)).map fun e => EdgeUpdate.add e.1 e.2
  let removes := (cs.edges.filter (fun e => e ∉ sorted)).map fun e => EdgeUpdate.remove e.1 e.2
  (adds ++ removes, { cs with edges := sorted, new_edges := [] })

end ChangeSet

/-- `graph/box.rs` `MAX_RESCHEDULE_COUNT`. -/
def MAX_RESCHEDULE_COUNT : Nat := 3

/-- The closed set of `BoxTrait` implementations in `graph/box.rs`:
`MethodCallBox` (with its reschedule counter) and `BlockParameterTypeBox`. -/
inductive RBox : Type
  | methodCall (id : BoxId) (recv : VertexId) (method_name : String) (ret : VertexId)
      (location : Option SourceLocation) (reschedule_count : Nat)
  | blockParameterType (id : BoxId) (recv_vtx : VertexId) (method_name : String)
      (block_param_vtxs : List VertexId)
  deriving DecidableEq

/-- `env/scope.rs` `ScopeId`. -/
abbrev ScopeId := Nat

/-- `env/scope.rs` `ScopeKind`. -/
inductive ScopeKind : Type
  | topLevel
  | classScope (name : String) (superclass : Option String)
  | moduleScope (name : String)
  | methodScope (name : String) (receiver_type : Option String)
  | block
  deriving DecidableEq

/-- `env/scope.rs` `Scope`: a lexical frame with its three name tables. -/
structure Scope where
  id : ScopeId
  kind : ScopeKind
  parent : Option ScopeId
  local_vars : List (String × VertexId)
  instance_vars : List (String × VertexId)
  class_vars : List (String × VertexId)
  deriving DecidableEq

namespace Scope

/-- `Scope::new`. -/
def new (id : ScopeId) (kind : ScopeKind) (parent : Option ScopeId) : Scope :=
  ⟨id, kind, parent, [], [], []⟩

/-- `Scope::set_local_var`. -/
def set_local_var (s : Scope) (name : String) (vtx : VertexId) : Scope :=
  { s with local_vars := insertA s.local_vars name vtx }

/-- `Scope::get_local_var`. -/
def get_local_var (s : Scope) (name : String) : Option VertexId :=
  lookupA s.local_vars name

/-- `Scope::set_instance_var`. -/
def set_instance_var (s : Scope) (name : String) (vtx : VertexId) : Scope :=
  { s with instance_vars := insertA s.instance_vars name vtx }

/-- `Scope::get_instance_var`. -/
def get_instance_var (s : Scope) (name : String) : Option VertexId :=
  lookupA s.instance_vars name

end Scope

/-- `env/scope.rs` `ScopeManager`. -/
structure ScopeManager where
  scopes : List (ScopeId × Scope)
  next_id : Nat
  current_scope : ScopeId
  deriving DecidableEq

namespace ScopeManager

/-- `ScopeManager::new`: a fresh manager holding the top-level frame. -/
def new : ScopeManager :=
  ⟨[(0, Scope.new 0 .topLevel none)], 1, 0⟩

/-- `ScopeManager::new_scope`: allocate a frame parented at the current one
(without entering it). -/
def new_scope (sm : ScopeManager) (kind : ScopeKind) : ScopeId × ScopeManager :=
  let id := sm.next_id
  (id, { sm with
          next_id := sm.next_id + 1,
          scopes := insertA sm.scopes id (Scope.new id kind (some sm.current_scope)) })

/-- `ScopeManager::enter_scope`. -/
def enter_scope (sm : ScopeManager) (scope_id : ScopeId) : ScopeManager :=
  { sm with current_scope := scope_id }

/-- `ScopeManager::exit_scope`: move to the parent of the current frame when
it has one. -/
def exit_scope (sm : ScopeManager) : ScopeManager :=
  match lookupA sm.scopes sm.current_scope with
  | some scope =>
      match scope.parent with
      | some parent => { sm with current_scope := parent }
      | none => sm
  | none => sm

/-- The parent-chain walk of `lookup_var`, fuelled: the source's `while`
loop visits one frame per iteration and every reachable manager has a
parent-decreasing chain, so `scopes.length + 1` steps are enough; on the
(unreachable) cyclic states where the source loop would diverge the fuelled
walk gives up with `none`. -/
def lookupVarAux (sm : ScopeManager) (name : String) :
    Nat → Option ScopeId → Option VertexId
  | 0, _ => none
  | _, none => none
  | fuel + 1, some scope_id =>
      match lookupA sm.scopes scope_id with
      | none => none
      | some scope =>
          match scope.get_local_var name with
          | some vtx => some vtx
          | none => lookupVarAux sm name fuel scope.parent

/-- `ScopeManager::lookup_var`: walk the parent chain, first hit wins. -/
def lookup_var (sm : ScopeManager) (name : String) : Option VertexId :=
  lookupVarAux sm name (sm.scopes.length + 1) (some sm.current_scope)

/-- The parent-chain walk of `lookup_instance_var`, fuelled like
`lookupVarAux`: climb until a `Class` frame and answer from its table. -/
def lookupIvarAux (sm : ScopeManager) (name : String) :
    Nat → Option ScopeId → Option VertexId
  | 0, _ => none
  | _, none => none
  | fuel + 1, some scope_id =>
      match lookupA sm.scopes scope_id with
      | none => none
      | some scope =>
          match scope.kind with
          | .classScope _ _ => scope.get_instance_var name
          | _ => lookupIvarAux sm name fuel scope.parent

/-- `ScopeManager::lookup_instance_var`: walk up to the enclosing class
frame and return its entry (module, method and block frames are climbed
through). -/
def lookup_instance_var (sm : ScopeManager) (name : String) : Option VertexId :=
  lookupIvarAux sm name (sm.scopes.length + 1) (some sm.current_scope)

/-- The parent-chain walk of `set_instance_var_in_class`, fuelled like
`lookupVarAux`: find the enclosing class frame and store the binding there;
when no class frame encloses, the walk ends without storing anything. -/
def setIvarAux (sm : ScopeManager) (name : String) (vtx : VertexId) :
    Nat → Option ScopeId → ScopeManager
  | 0, _ => sm
  | _, none => sm
  | fuel + 1, some scope_id =>
      match lookupA sm.scopes scope_id with
      | none => sm
      | some scope =>
          match scope.kind with
          | .classScope _ _ =>
              { sm with scopes := insertA sm.scopes scope_id (scope.set_instance_var name vtx) }
          | _ => setIvarAux sm name vtx fuel scope.parent

/-- `ScopeManager::set_instance_var_in_class`. -/
def set_instance_var_in_class (sm : ScopeManager) (name : String) (vtx : VertexId) :
    ScopeManager :=
  setIvarAux sm name vtx (sm.scopes.length + 1) (some sm.current_scope)

/-- The walk of `lookup_instance_var_in_module`: like the class walk but
stopping at the enclosing `Module` frame. -/
def lookupIvarModuleAux (sm : ScopeManager) (name : String) :
    Nat → Option ScopeId → Option VertexId
  | 0, _ => none
  | _, none => none
  | fuel + 1, some scope_id =>
      match lookupA sm.scopes scope_id with
      | none => none
      | some scope =>
          match scope.kind with
          | .moduleScope _ => scope.get_instance_var name
          | _ => lookupIvarModuleAux sm name fuel scope.parent

/-- `ScopeManager::lookup_instance_var_in_module`. -/
def lookup_instance_var_in_module (sm : ScopeManager) (name : String) : Option VertexId :=
  lookupIvarModuleAux sm name (sm.scopes.length + 1) (some sm.current_scope)

/-- The climb of `current_class_name`: name of the nearest class frame. -/
def currentClassNameAux (sm : ScopeManager) :
    Nat → Option ScopeId → Option String
  | 0, _ => none
  | _, none => none
  | fuel + 1, some scope_id =>
      match lookupA sm.scopes scope_id with
      | none => none
      | some scope =>
          match scope.kind with
          | .classScope name _ => some name
          | _ => currentClassNameAux sm fuel scope.parent

/-- `ScopeManager::current_class_name`. -/
def current_class_name (sm : ScopeManager) : Option String :=
  currentClassNameAux sm (sm.scopes.length + 1) (some sm.current_scope)

/-- The climb of `current_qualified_name`, collecting class/module segment
names innermost-first (the source then reverses). -/
def qualifiedSegmentsAux (sm : ScopeManager) :
    Nat → Option ScopeId → List String
  | 0, _ => []
  | _, none => []
  | fuel + 1, some scope_id =>
      match lookupA sm.scopes scope_id with
      | none => []
      | some scope =>
          match scope.kind with
          | .classScope name _ => name :: qualifiedSegmentsAux sm fuel scope.parent
          | .moduleScope name => name :: qualifiedSegmentsAux sm fuel scope.parent
          | _ => qualifiedSegmentsAux sm fuel scope.parent

/-- `ScopeManager::current_qualified_name`: all enclosing class/module
names, outermost first, joined with `::` (segments already containing `::`
are kept verbatim); `none` when no class or module frame encloses. -/
def current_qualified_name (sm : ScopeManager) : Option String :=
  let segs := (qualifiedSegmentsAux sm (sm.scopes.length + 1) (some sm.current_scope)).reverse
  match segs with
  | [] => none
  | first :: rest => some (rest.foldl (fun acc seg => acc ++ "::" ++ seg) first)

end ScopeManager

/-- `env/global_env.rs` `GlobalEnv`: the whole mutable state of one
analysis.  `HashMap`/`HashSet` fields are association lists / duplicate-free
lists as in `Vertex`. -/
structure GlobalEnv where
  vertices : List (VertexId × Vertex)
  sources : List (VertexId × Source)
  boxes : List (BoxId × RBox)
  run_queue : List BoxId
  run_queue_set : List BoxId
  methods : List ((Ty × String) × MethodInfo)
  type_errors : List TypeError
  scope_manager : ScopeManager
  next_vertex_id : Nat
  next_box_id : Nat
  deriving DecidableEq

namespace GlobalEnv

/-- `GlobalEnv::new`. -/
def new : GlobalEnv :=
  ⟨[], [], [], [], [], [], [], ScopeManager.new, 0, 0⟩

/-- `GlobalEnv::new_vertex`: allocate the next id as a mutable vertex. -/
def new_vertex (g : GlobalEnv) : VertexId × GlobalEnv :=
  let id := g.next_vertex_id
  (id, { g with next_vertex_id := id + 1,
                vertices := insertA g.vertices id (Vertex.new id) })

/-- `GlobalEnv::new_source`: allocate the next id as a fixed-type source. -/
def new_source (g : GlobalEnv) (ty : Ty) : VertexId × GlobalEnv :=
  let id := g.next_vertex_id
  (id, { g with next_vertex_id := id + 1,
                sources := insertA g.sources id (Source.mk id ty) })

/-- `GlobalEnv::get_vertex`. -/
def get_vertex (g : GlobalEnv) (id : VertexId) : Option Vertex :=
  lookupA g.vertices id

/-- `GlobalEnv::get_source`. -/
def get_source (g : GlobalEnv) (id : VertexId) : Option Source :=
  lookupA g.sources id

/-- Store an updated vertex back into the arena (the effect of the source's
in-place `get_mut` update). -/
def setVertex (g : GlobalEnv) (id : VertexId) (v : Vertex) : GlobalEnv :=
  { g with vertices := insertA g.vertices id v }

/-- `GlobalEnv::resolve_method`: the exact `(receiver type, name)` lookup in
the method table (no generic fallback is performed here). -/
def resolve_method (g : GlobalEnv) (recv_ty : Ty) (method_name : String) : Option MethodInfo :=
  lookupA g.methods (recv_ty, method_name)

/-- `GlobalEnv::register_builtin_method`. -/
def register_builtin_method (g : GlobalEnv) (recv_ty : Ty) (method_name : String)
    (ret_ty : Ty) : GlobalEnv :=
  let info : MethodInfo := { return_type := ret_ty, block_param_types := none }
  { g with methods := insertA g.methods (recv_ty, method_name) info }

/-- `register_builtin_method_with_block`, as exercised by the box tests:
like `register_builtin_method` but carrying block parameter types. -/
def register_builtin_method_with_block (g : GlobalEnv) (recv_ty : Ty) (method_name : String)
    (ret_ty : Ty) (block_param_types : Option (List Ty)) : GlobalEnv :=
  let info : MethodInfo := { return_type := ret_ty, block_param_types := block_param_types }
  { g with methods := insertA g.methods (recv_ty, method_name) info }

/-- `GlobalEnv::record_type_error` with the fields `MethodCallBox::run`
supplies. -/
def record_type_error (g : GlobalEnv) (receiver_type : Ty) (method_name : String)
    (location : Option SourceLocation) : GlobalEnv :=
  { g with type_errors := g.type_errors ++ [⟨receiver_type, method_name, location⟩] }

/-- `GlobalEnv::add_run`: enqueue a box unless it is already queued. -/
def add_run (g : GlobalEnv) (box_id : BoxId) : GlobalEnv :=
  if box_id ∈ g.run_queue_set then g
  else { g with run_queue := g.run_queue ++ [box_id],
                run_queue_set := g.run_queue_set ++ [box_id] }

/-- The worklist form of the recursion `GlobalEnv::propagate_types`: each
item `(src_id, dst_id, types)` is one pending recursive call, and the
recursive calls spawned by a step are pushed in front (depth-first, in
order), exactly defunctionalising the source's recursion.  The fuel only
makes the recursion syntactically total; the termination theorem shows the
computed bound is never exhausted. -/
def propagateAux : Nat → GlobalEnv → List (VertexId × VertexId × List Ty) → Option GlobalEnv
  | 0, _, _ => none
  | _ + 1, g, [] => some g
  | fuel + 1, g, (src_id, dst_id, types) :: rest =>
      match g.get_vertex dst_id with
      | none =>
          -- If dst is Source (or absent), do nothing (fixed type)
          propagateAux fuel g rest
      | some dstV =>
          let p := dstV.on_type_added src_id types
          propagateAux fuel (g.setVertex dst_id p.1)
            ((p.2.map fun q => (dst_id, q.1, q.2)) ++ rest)

/-- All types carried by a propagation worklist. -/
def wlTys (wl : List (VertexId × VertexId × List Ty)) : List Ty :=
  wl.foldr (fun it acc => it.2.2 ++ acc) []

/-- Number of types of the universe `U` missing from one vertex. -/
def missingOne (U : List Ty) (v : Vertex) : Nat :=
  (U.filter fun t => t ∉ v.typeKeys).length

/-- Total number of `(vertex, type)` pairs of the universe still missing:
the quantity that strictly decreases whenever propagation adds a type. -/
def missingCount (U : List Ty) (g : GlobalEnv) : Nat :=
  (g.vertices.map fun p => missingOne U p.2).sum

/-- An upper bound on the out-degree of any vertex of the store. -/
def maxOut (g : GlobalEnv) : Nat :=
  (g.vertices.map fun p => p.2.next_vtxs.length).foldr Nat.max 0

/-- The termination measure of the propagation worklist. -/
def propMeasure (U : List Ty) (g : GlobalEnv) (wl : List (VertexId × VertexId × List Ty)) : Nat :=
  missingCount U g * (maxOut g + 2) + wl.length

/-- The fuel handed to `propagateAux`; sufficiency is proved below. -/
def propBound (g : GlobalEnv) (wl : List (VertexId × VertexId × List Ty)) : Nat :=
  propMeasure (wlTys wl) g wl + 1

/-- The first half of `GlobalEnv::add_edge`: record the successor on the
`src` vertex when it is one. -/
def addNextIn (g : GlobalEnv) (src dst : VertexId) : GlobalEnv :=
  match g.get_vertex src with
  | some v => g.setVertex src (v.add_next dst)
  | none => g

/-- The type snapshot `GlobalEnv::propagate_from` takes of `src`: the
vertex's keys, a source's single type, or nothing. -/
def srcTypes (g : GlobalEnv) (src : VertexId) : List Ty :=
  match g.get_vertex src with
  | some v => v.typeKeys
  | none =>
      match g.get_source src with
      | some s => [s.ty]
      | none => []

/-- `GlobalEnv::add_edge`: record the successor on `src` and immediately
propagate `src`'s types to `dst` (`propagate_from`).  When a vertex or
source with id `src` is absent, or its type set is empty, no propagation
happens. -/
def add_edge (g : GlobalEnv) (src dst : VertexId) : GlobalEnv :=
  let g1 := addNextIn g src dst
  let types := srcTypes g1 src
  if types.isEmpty then g1
  else (propagateAux (propBound g1 [(src, dst, types)]) g1 [(src, dst, types)]).getD g1

/-- The `for update in updates` loop of `GlobalEnv::apply_changes`: apply
`Add` edges; `Remove` is the unimplemented Phase-2 stub. -/
def applyUpdates : GlobalEnv → List EdgeUpdate → GlobalEnv
  | g, [] => g
  | g, (.add src dst) :: rest => applyUpdates (g.add_edge src dst) rest
  | g, (.remove _ _) :: rest => applyUpdates g rest

/-- `GlobalEnv::apply_changes`: commit the change set and apply the edge
updates.  Note that the change set's reschedule list is not consumed
anywhere in this function. -/
def apply_changes (g : GlobalEnv) (changes : ChangeSet) : GlobalEnv :=
  applyUpdates g (changes.reinstall).1

end GlobalEnv

/-- `BlockParameterTypeBox::is_type_variable_name`. -/
def is_type_variable_name (name : String) : Bool :=
  name = "Elem" || name = "K" || name = "V" || name = "T" || name = "U" ||
  name = "A" || name = "B" || name = "Element" || name = "Key" || name = "Value" ||
  name = "Out" || name = "In"

/-- `BlockParameterTypeBox::resolve_type_variable`: substitute a
type-variable block-parameter type from the receiver's generic arguments,
per the class/variable index table of the source. -/
def resolve_type_variable (ty recv_ty : Ty) : Option Ty :=
  match ty with
  | .instanceType name =>
      if is_type_variable_name name then
        match recv_ty.type_args with
        | none => none
        | some type_args =>
            match recv_ty.base_class_name with
            | none => none
            | some class_name =>
                let index : Option Nat :=
                  if class_name = "Array" &&
                      (name = "Elem" || name = "T" || name = "Element") then some 0
                  else if class_name = "Hash" && (name = "K" || name = "Key") then some 0
                  else if class_name = "Hash" && (name = "V" || name = "Value") then some 1
                  else if name = "Elem" || name = "T" || name = "Element" then some 0
                  else none
                index.bind fun i => type_args.get? i
      else none
  | _ => none

/-- The `for recv_ty in recv_types` body of `MethodCallBox::run`: resolve
each receiver type, wiring a fresh return-type source on a hit and
recording an undefined-method error on a miss. -/
def methodCallLoop (method_name : String) (location : Option SourceLocation)
    (ret : VertexId) :
    GlobalEnv → ChangeSet → List Ty → GlobalEnv × ChangeSet
  | g, cs, [] => (g, cs)
  | g, cs, recv_ty :: rest =>
      match g.resolve_method recv_ty method_name with
      | some method_info =>
          let p := g.new_source method_info.return_type
          methodCallLoop method_name location ret p.2 (cs.add_edge p.1 ret) rest
      | none =>
          methodCallLoop method_name location ret
            (g.record_type_error recv_ty method_name location) cs rest

/-- The inner `for (i, param_type)` loop of `BlockParameterTypeBox::run`:
assign each declared block-parameter type (after type-variable substitution)
to its vertex, skipping unresolvable type variables. -/
def blockParamAssignLoop (block_param_vtxs : List VertexId) (recv_ty : Ty) :
    GlobalEnv → ChangeSet → Nat → List Ty → GlobalEnv × ChangeSet
  | g, cs, _, [] => (g, cs)
  | g, cs, i, param_type :: rest =>
      if h : i < block_param_vtxs.length then
        let param_vtx := block_param_vtxs.get ⟨i, h⟩
        let resolved_type : Option Ty :=
          match resolve_type_variable param_type recv_ty with
          | some resolved => some resolved
          | none =>
              match param_type with
              | .instanceType name =>
                  if is_type_variable_name name then none else some param_type
              | _ => some param_type
        match resolved_type with
        | none => blockParamAssignLoop block_param_vtxs recv_ty g cs (i + 1) rest
        | some rt =>
            let p := g.new_source rt
            blockParamAssignLoop block_param_vtxs recv_ty p.2
              (cs.add_edge p.1 param_vtx) (i + 1) rest
      else blockParamAssignLoop block_param_vtxs recv_ty g cs (i + 1) rest

/-- The outer `for recv_ty in recv_types` loop of
`BlockParameterTypeBox::run`. -/
def blockParamTypeLoop (method_name : String) (block_param_vtxs : List VertexId) :
    GlobalEnv → ChangeSet → List Ty → GlobalEnv × ChangeSet
  | g, cs, [] => (g, cs)
  | g, cs, recv_ty :: rest =>
      match (g.resolve_method recv_ty method_name).bind
          (fun info => info.block_param_types) with
      | some param_types =>
          let p := blockParamAssignLoop block_param_vtxs recv_ty g cs 0 param_types
          blockParamTypeLoop method_name block_param_vtxs p.1 p.2 rest
      | none => blockParamTypeLoop method_name block_param_vtxs g cs rest

/-- The receiver snapshot shared by both box kinds: the type keys of a
vertex, the singleton type of a source, or `none` when the id is unknown. -/
def recvSnapshot (g : GlobalEnv) (recv : VertexId) : Option (List Ty) :=
  match g.get_vertex recv with
  | some v => some v.typeKeys
  | none =>
      match g.get_source recv with
      | some s => some [s.ty]
      | none => none

/-- `BoxTrait::run` for the two box kinds, returning the (possibly
counter-incremented) box, the environment and the change set. -/
def RBox.run : RBox → GlobalEnv → ChangeSet → RBox × GlobalEnv × ChangeSet
  | .methodCall id recv method_name ret location cnt, genv, changes =>
      match recvSnapshot genv recv with
      | none => (.methodCall id recv method_name ret location cnt, genv, changes)
      | some recv_types =>
          if recv_types.isEmpty then
            if cnt < MAX_RESCHEDULE_COUNT then
              (.methodCall id recv method_name ret location (cnt + 1), genv,
                changes.reschedule id)
            else
              (.methodCall id recv method_name ret location cnt, genv, changes)
          else
            let p := methodCallLoop method_name location ret genv changes recv_types
            (.methodCall id recv method_name ret location cnt, p.1, p.2)
  | .blockParameterType id recv_vtx method_name block_param_vtxs, genv, changes =>
      match recvSnapshot genv recv_vtx with
      | none => (.blockParameterType id recv_vtx method_name block_param_vtxs, genv, changes)
      | some recv_types =>
          let p := blockParamTypeLoop method_name block_param_vtxs genv changes recv_types
          (.blockParameterType id recv_vtx method_name block_param_vtxs, p.1, p.2)

namespace GlobalEnv

/-- The body of one drain iteration of `GlobalEnv::run_all` once a box was
found: temporarily remove the box from the table, run it on a fresh change
set, re-insert the (possibly updated) box and apply the change set. -/
def runStep (g0 : GlobalEnv) (box_id : BoxId) (b : RBox) : GlobalEnv :=
  let g1 : GlobalEnv := { g0 with boxes := removeA g0.boxes box_id }
  let p := b.run g1 ChangeSet.new
  let g3 : GlobalEnv := { p.2.1 with boxes := insertA p.2.1.boxes box_id p.1 }
  g3.apply_changes p.2.2

/-- One drain iteration plus the rest of `GlobalEnv::run_all`, fuelled: pop
a box id, drop it from the dedup set, run the box outside the box table,
re-insert it and apply its change set.  The termination theorem shows a fuel
of the initial queue length always suffices (nothing in the loop enqueues). -/
def runAllAux : Nat → GlobalEnv → Option GlobalEnv
  | 0, g => if g.run_queue.isEmpty then some g else none
  | fuel + 1, g =>
      match g.run_queue with
      | [] => some g
      | box_id :: rest =>
          let g0 : GlobalEnv :=
            { g with run_queue := rest, run_queue_set := g.run_queue_set.erase box_id }
          match lookupA g0.boxes box_id with
          | none => runAllAux fuel g0
          | some b => runAllAux fuel (runStep g0 box_id b)

/-- `GlobalEnv::run_all`: drain the ready queue. -/
def run_all (g : GlobalEnv) : GlobalEnv :=
  (runAllAux g.run_queue.length g).getD g

end GlobalEnv

/-- `env/method_registry.rs` `MethodRegistry`. -/
structure MethodRegistry where
  methods : List ((Ty × String) × MethodInfo)
  deriving DecidableEq

namespace MethodRegistry

/-- `MethodRegistry::new`. -/
def new : MethodRegistry := ⟨[]⟩

/-- `MethodRegistry::register_with_block`. -/
def register_with_block (reg : MethodRegistry) (recv_ty : Ty) (method_name : String)
    (ret_ty : Ty) (block_param_types : Option (List Ty)) : MethodRegistry :=
  let info : MethodInfo := { return_type := ret_ty, block_param_types := block_param_types }
  ⟨insertA reg.methods (recv_ty, method_name) info⟩

/-- `MethodRegistry::register`. -/
def register (reg : MethodRegistry) (recv_ty : Ty) (method_name : String)
    (ret_ty : Ty) : MethodRegistry :=
  reg.register_with_block recv_ty method_name ret_ty none

/-- `MethodRegistry::resolve`: exact `(receiver, name)` lookup first, then,
for a generic receiver, fall back to the unparameterized base class. -/
def resolve (reg : MethodRegistry) (recv_ty : Ty) (method_name : String) :
    Option MethodInfo :=
  match lookupA reg.methods (recv_ty, method_name) with
  | some info => some info
  | none =>
      match recv_ty with
      | .generic name _ => lookupA reg.methods (.instanceType name, method_name)
      | _ => none

end MethodRegistry

/-- `str::trim_start_matches("::")` on the character list: strip every
leading `::` occurrence. -/
def dropLeadingColons : List Char → List Char
  | ':' :: ':' :: rest => dropLeadingColons rest
  | cs => cs

/-- `rbs_type.trim_start_matches("::")`. -/
def trimStartColons (s : String) : String :=
  String.mk (dropLeadingColons s.toList)

/-- `str::split(" | ")` on the character list: cut at each non-overlapping
occurrence of the three-character separator, scanning left to right. -/
def splitPipeAux : List Char → List Char → List (List Char)
  | acc, [] => [acc.reverse]
  | acc, ' ' :: '|' :: ' ' :: rest => acc.reverse :: splitPipeAux [] rest
  | acc, c :: rest => splitPipeAux (c :: acc) rest

/-- The parts of `rbs_type.split(" | ")`. -/
def splitPipe (s : String) : List (List Char) :=
  splitPipeAux [] s.toList

/-- ASCII whitespace test of `str::trim` (the printed forms only ever
carry spaces). -/
def isWhitespaceChar (c : Char) : Bool :=
  c = ' ' || c = '\t' || c = '\n' || c = '\r'

/-- Drop leading whitespace. -/
def trimCharsLeft : List Char → List Char
  | [] => []
  | c :: rest => if isWhitespaceChar c then trimCharsLeft rest else c :: rest

/-- `str::trim` on the character list. -/
def trimChars (cs : List Char) : List Char :=
  (trimCharsLeft (trimCharsLeft cs).reverse).reverse

namespace RbsTypeConverter

/-- `rbs/converter.rs` `RbsTypeConverter::parse_single`: strip the `::`
prefix and map the keywords `bool`, `void`/`nil` and `untyped`/`top`;
everything else becomes a plain `Instance` of the remaining text. -/
def parse_single (rbs_type : String) : Ty :=
  let type_name := trimStartColons rbs_type
  if type_name = "bool" then
    .union [.instanceType "TrueClass", .instanceType "FalseClass"]
  else if type_name = "void" || type_name = "nil" then .nil
  else if type_name = "untyped" || type_name = "top" then .bot
  else .instanceType type_name

/-- `rbs/converter.rs` `RbsTypeConverter::parse`: split a top-level union
on `" | "` and parse each trimmed part with `parse_single`, otherwise parse
the whole string with `parse_single` (`contains(" | ")` holds exactly when
the split yields more than one part). -/
def parse (rbs_type : String) : Ty :=
  let parts := splitPipe rbs_type
  if parts.length > 1 then
    .union (parts.map fun p => parse_single (String.mk (trimChars p)))
  else parse_single rbs_type

end RbsTypeConverter

/-- `cache/rbs_cache.rs` `SerializableMethodInfo`: one serialized signature
record of the cache. -/
structure SerializableMethodInfo where
  receiver_class : String
  method_name : String
  return_type_str : String
  block_param_types : Option (List String)
  deriving DecidableEq

/-- `SerializableMethodInfo::return_type`: the driver-side deserialization
of the stored printed form, wrapping the string verbatim as an `Instance`
type (`Type::instance(&self.return_type_str)`). -/
def SerializableMethodInfo.return_type (m : SerializableMethodInfo) : Ty :=
  .instanceType m.return_type_str

/-- The registration loop of `checker.rs` `load_rbs_from_cache`: register
each cached record under `(Instance(receiver_class), method_name)` with the
deserialized return type. -/
def load_rbs_from_cache (genv : GlobalEnv) :
    List SerializableMethodInfo → GlobalEnv
  | [] => genv
  | m :: rest =>
      load_rbs_from_cache
        (genv.register_builtin_method (.instanceType m.receiver_class)
          m.method_name m.return_type) rest

/-- The element-type condensation of
`AstInstaller::install_array_literal_elements`: the gathered element types
form a set (the `HashSet` is modelled by `dedup`); none gives plain
`Array`, a single type `Array[T]`, several a union `Array[T1 | T2 | …]`. -/
def arrayLiteralType (element_types : List Ty) : Ty :=
  match element_types.dedup with
  | [] => Ty.array
  | [t] => Ty.array_of t
  | ts => Ty.array_of (.union ts)

/-- `env/local_env.rs` `LocalEnv`: the flat name-to-vertex map of the
producer walk. -/
structure LocalEnv where
  locals : List (String × VertexId)
  deriving DecidableEq

namespace LocalEnv

/-- `LocalEnv::new`. -/
def new : LocalEnv := ⟨[]⟩

/-- `LocalEnv::new_var`. -/
def new_var (l : LocalEnv) (name : String) (vtx_id : VertexId) : LocalEnv :=
  ⟨insertA l.locals name vtx_id⟩

/-- `LocalEnv::get_var`. -/
def get_var (l : LocalEnv) (name : String) : Option VertexId :=
  lookupA l.locals name

end LocalEnv

namespace GlobalEnv

/-- `GlobalEnv::enter_class`. -/
def enter_class (g : GlobalEnv) (name : String) : ScopeId × GlobalEnv :=
  let p := g.scope_manager.new_scope (.classScope name none)
  (p.1, { g with scope_manager := p.2.enter_scope p.1 })

/-- `GlobalEnv::enter_module`, as called by
`analyzer/definitions.rs` `install_module`: the module analogue of
`enter_class`. -/
def enter_module (g : GlobalEnv) (name : String) : ScopeId × GlobalEnv :=
  let p := g.scope_manager.new_scope (.moduleScope name)
  (p.1, { g with scope_manager := p.2.enter_scope p.1 })

/-- `GlobalEnv::enter_method`: the method frame remembers the enclosing
class name as its receiver type. -/
def enter_method (g : GlobalEnv) (name : String) : ScopeId × GlobalEnv :=
  let class_name := g.scope_manager.current_class_name
  let p := g.scope_manager.new_scope (.methodScope name class_name)
  (p.1, { g with scope_manager := p.2.enter_scope p.1 })

/-- `GlobalEnv::exit_scope`. -/
def exit_scope (g : GlobalEnv) : GlobalEnv :=
  { g with scope_manager := g.scope_manager.exit_scope }

/-- Modelled from the spec: `GlobalEnv::alloc_box_id` is called by the
producer but its defining module (`env/box_manager.rs`, declared in
`env/mod.rs`) is not under `src/`; following the id scheme visible in
`install_method_call`, it hands out `next_box_id` and increments it. -/
def alloc_box_id (g : GlobalEnv) : BoxId × GlobalEnv :=
  (g.next_box_id, { g with next_box_id := g.next_box_id + 1 })

/-- Modelled from the spec: `GlobalEnv::register_box` is called by the
producer and by the box tests but its defining module is not under `src/`;
per §4.D.3 (boxes are scheduled when installed) and the box tests, which
expect a freshly registered box to execute on the next `run_all`, it stores
the box and enqueues its id. -/
def register_box (g : GlobalEnv) (box_id : BoxId) (b : RBox) : GlobalEnv :=
  ({ g with boxes := insertA g.boxes box_id b }).add_run box_id

end GlobalEnv

/-- `analyzer/calls.rs` `install_method_call`: allocate the return vertex,
create the `MethodCallBox` under a fresh box id, store and enqueue it. -/
def install_method_call (genv : GlobalEnv) (recv_vtx : VertexId) (method_name : String)
    (location : Option SourceLocation) : VertexId × GlobalEnv :=
  let p := genv.new_vertex
  let box_id := p.2.next_box_id
  let g2 := { p.2 with next_box_id := box_id + 1 }
  let call_box := RBox.methodCall box_id recv_vtx method_name p.1 location 0
  let g3 := { g2 with boxes := insertA g2.boxes box_id call_box }
  (p.1, g3.add_run box_id)

/-- `analyzer/variables.rs` `install_local_var_write`: fresh vertex, flat
binding, pending edge from the value. -/
def install_local_var_write (genv : GlobalEnv) (lenv : LocalEnv) (changes : ChangeSet)
    (var_name : String) (value_vtx : VertexId) :
    VertexId × GlobalEnv × LocalEnv × ChangeSet :=
  let p := genv.new_vertex
  (p.1, p.2, lenv.new_var var_name p.1, changes.add_edge value_vtx p.1)

/-- `analyzer/variables.rs` `install_ivar_write`: store the value vertex
itself in the enclosing class frame. -/
def install_ivar_write (genv : GlobalEnv) (ivar_name : String) (value_vtx : VertexId) :
    GlobalEnv :=
  { genv with scope_manager :=
      genv.scope_manager.set_instance_var_in_class ivar_name value_vtx }

/-- `analyzer/variables.rs` `install_ivar_read`. -/
def install_ivar_read (genv : GlobalEnv) (ivar_name : String) : Option VertexId :=
  genv.scope_manager.lookup_instance_var ivar_name

/-- `analyzer/variables.rs` `install_self`: a source typed with the current
qualified class/module name, `Instance("Object")` at top level. -/
def install_self (genv : GlobalEnv) : VertexId × GlobalEnv :=
  match genv.scope_manager.current_qualified_name with
  | some qualified_name => genv.new_source (.instanceType qualified_name)
  | none => genv.new_source (.instanceType "Object")

/-- `analyzer/parameters.rs` `install_required_parameter`: untyped vertex
plus flat binding. -/
def install_required_parameter (genv : GlobalEnv) (lenv : LocalEnv) (name : String) :
    VertexId × GlobalEnv × LocalEnv :=
  let p := genv.new_vertex
  (p.1, p.2, lenv.new_var name p.1)

/-- `analyzer/parameters.rs` `install_optional_parameter`: the default
value's vertex is wired straight into the parameter vertex with an
immediate `add_edge`. -/
def install_optional_parameter (genv : GlobalEnv) (lenv : LocalEnv)
    (name : String) (default_value_vtx : VertexId) :
    VertexId × GlobalEnv × LocalEnv :=
  let p := genv.new_vertex
  let g2 := p.2.add_edge default_value_vtx p.1
  (p.1, g2, lenv.new_var name p.1)

/-- `analyzer/parameters.rs` `install_rest_parameter`: parameter vertex
seeded from a fresh `Array` source. -/
def install_rest_parameter (genv : GlobalEnv) (lenv : LocalEnv) (name : String) :
    VertexId × GlobalEnv × LocalEnv :=
  let p := genv.new_vertex
  let q := p.2.new_source Ty.array
  let g3 := q.2.add_edge q.1 p.1
  (p.1, g3, lenv.new_var name p.1)

/-- `analyzer/parameters.rs` `install_keyword_rest_parameter`: parameter
vertex seeded from a fresh `Hash` source. -/
def install_keyword_rest_parameter (genv : GlobalEnv) (lenv : LocalEnv) (name : String) :
    VertexId × GlobalEnv × LocalEnv :=
  let p := genv.new_vertex
  let q := p.2.new_source Ty.hashT
  let g3 := q.2.add_edge q.1 p.1
  (p.1, g3, lenv.new_var name p.1)

/-- `analyzer/blocks.rs` `install_block_parameter`: reuses the
required-parameter logic. -/
def install_block_parameter (genv : GlobalEnv) (lenv : LocalEnv) (name : String) :
    VertexId × GlobalEnv × LocalEnv :=
  install_required_parameter genv lenv name

/-- `analyzer/blocks.rs` `enter_block_scope`. -/
def enter_block_scope (genv : GlobalEnv) : GlobalEnv :=
  let p := genv.scope_manager.new_scope .block
  { genv with scope_manager := p.2.enter_scope p.1 }

/-- `analyzer/blocks.rs` `exit_block_scope`. -/
def exit_block_scope (genv : GlobalEnv) : GlobalEnv :=
  genv.exit_scope

/-- The AST shape consumed by `AstInstaller::install_node`
(`analyzer/install.rs`, `dispatch.rs`): the node kinds the producer
dispatches on, with the children it actually reads.  Parameter lists carry
the required names, the optional `(name, default)` pairs, and the optional
rest / keyword-rest names, as extracted from the prism nodes; call
locations are carried already resolved to `(line, column, length)`. -/
inductive Node : Type
  | stringLit
  | integerLit
  | floatLit
  | hashLit
  | nilLit
  | trueLit
  | falseLit
  | symbolLit
  | regexpLit
  | rangeLit
  | arrayLit (elements : List Node)
  | localVarRead (name : String)
  | localVarWrite (name : String) (value : Node)
  | ivarRead (name : String)
  | ivarWrite (name : String) (value : Node)
  | selfNode
  | callNode (receiver : Node) (method_name : String) (location : SourceLocation)
      (block : Option Node)
  | blockNode (requireds : List String) (optionals : List (String × Node))
      (rest : Option String) (body : List Node)
  | classNode (name : String) (body : List Node)
  | moduleNode (name : String) (body : List Node)
  | defNode (name : String) (requireds : List String) (optionals : List (String × Node))
      (rest : Option String) (kwrest : Option String) (body : List Node)

/-- The mutable state threaded by `AstInstaller`: the global environment,
the flat local environment and the pending change set. -/
structure InstallState where
  genv : GlobalEnv
  lenv : LocalEnv
  changes : ChangeSet

/-- `analyzer/literals.rs` `install_literal` for the non-array literal
kinds: a fresh source with the literal's type. -/
def literalTy : Node → Option Ty
  | .stringLit => some Ty.string
  | .integerLit => some Ty.integer
  | .floatLit => some Ty.float
  | .hashLit => some Ty.hashT
  | .nilLit => some Ty.nil
  | .trueLit => some (.instanceType "TrueClass")
  | .falseLit => some (.instanceType "FalseClass")
  | .symbolLit => some Ty.symbol
  | .regexpLit => some (.instanceType "Regexp")
  | .rangeLit => some (.instanceType "Range")
  | _ => none

/-- `install_required_parameter` lifted to the installer state, recording
the produced vertex. -/
def stRequiredParam (st : InstallState) (name : String) : InstallState × VertexId :=
  let q := install_required_parameter st.genv st.lenv name
  ({ st with genv := q.2.1, lenv := q.2.2 }, q.1)

mutual

/-- `AstInstaller::install_node`: the two-phase dispatch.  Definitions
(class/module/def/block) are handled first; then the simple dispatch
(ivar read, `self`, local read), the literals (array literals with element
collection), and finally the needs-child kinds (ivar write, local write,
method call), mirroring `install.rs` and `dispatch.rs`. -/
def installNode (st : InstallState) (node : Node) : InstallState × Option VertexId :=
  match node with
  | .classNode name body =>
      let st1 : InstallState := { st with genv := (st.genv.enter_class name).2 }
      let st2 := installStatements st1 body
      ({ st2 with genv := st2.genv.exit_scope }, none)
  | .moduleNode name body =>
      let st1 : InstallState := { st with genv := (st.genv.enter_module name).2 }
      let st2 := installStatements st1 body
      ({ st2 with genv := st2.genv.exit_scope }, none)
  | .defNode name requireds optionals rest kwrest body =>
      let st1 : InstallState := { st with genv := (st.genv.enter_method name).2 }
      -- Process parameters BEFORE processing body
      let st2 := installParameters st1 requireds optionals rest kwrest
      let st3 := installStatements st2 body
      ({ st3 with genv := st3.genv.exit_scope }, none)
  | .blockNode requireds optionals rest body =>
      ((installBlockNodeWithParams st requireds optionals rest body).1, none)
  | .ivarRead name => (st, install_ivar_read st.genv name)
  | .selfNode =>
      let p := install_self st.genv
      ({ st with genv := p.2 }, some p.1)
  | .localVarRead name => (st, st.lenv.get_var name)
  | .arrayLit elements =>
      if elements.isEmpty then
        let p := st.genv.new_source Ty.array
        ({ st with genv := p.2 }, some p.1)
      else
        let q := installArrayElems st elements
        let p := q.1.genv.new_source (arrayLiteralType q.2)
        ({ q.1 with genv := p.2 }, some p.1)
  | .stringLit =>
      let p := st.genv.new_source Ty.string
      ({ st with genv := p.2 }, some p.1)
  | .integerLit =>
      let p := st.genv.new_source Ty.integer
      ({ st with genv := p.2 }, some p.1)
  | .floatLit =>
      let p := st.genv.new_source Ty.float
      ({ st with genv := p.2 }, some p.1)
  | .hashLit =>
      let p := st.genv.new_source Ty.hashT
      ({ st with genv := p.2 }, some p.1)
  | .nilLit =>
      let p := st.genv.new_source Ty.nil
      ({ st with genv := p.2 }, some p.1)
  | .trueLit =>
      let p := st.genv.new_source (.instanceType "TrueClass")
      ({ st with genv := p.2 }, some p.1)
  | .falseLit =>
      let p := st.genv.new_source (.instanceType "FalseClass")
      ({ st with genv := p.2 }, some p.1)
  | .symbolLit =>
      let p := st.genv.new_source Ty.symbol
      ({ st with genv := p.2 }, some p.1)
  | .regexpLit =>
      let p := st.genv.new_source (.instanceType "Regexp")
      ({ st with genv := p.2 }, some p.1)
  | .rangeLit =>
      let p := st.genv.new_source (.instanceType "Range")
      ({ st with genv := p.2 }, some p.1)
  | .ivarWrite name value =>
      let p := installNode st value
      p.2.elim (p.1, none) fun value_vtx =>
        ({ p.1 with genv := install_ivar_write p.1.genv name value_vtx }, some value_vtx)
  | .localVarWrite name value =>
      let p := installNode st value
      p.2.elim (p.1, none) fun value_vtx =>
        let q := install_local_var_write p.1.genv p.1.lenv p.1.changes name value_vtx
        (⟨q.2.1, q.2.2.1, q.2.2.2⟩, some q.1)
  | .callNode receiver method_name location (some (.blockNode requireds optionals rest body)) =>
      let p0 := installNode st receiver
      p0.2.elim (p0.1, none) fun recv_vtx =>
          let p := installBlockNodeWithParams p0.1 requireds optionals rest body
          let st3 : InstallState :=
            if p.2.isEmpty then p.1
            else
              let q := p.1.genv.alloc_box_id
              { p.1 with genv :=
                  q.2.register_box q.1 (.blockParameterType q.1 recv_vtx method_name p.2) }
          let r := install_method_call st3.genv recv_vtx method_name (some location)
          ({ st3 with genv := r.2 }, some r.1)
  | .callNode receiver method_name location _ =>
      -- a missing block, or a non-block argument: no block parameters collected
      let p0 := installNode st receiver
      p0.2.elim (p0.1, none) fun recv_vtx =>
          let r := install_method_call p0.1.genv recv_vtx method_name (some location)
          ({ p0.1 with genv := r.2 }, some r.1)
termination_by sizeOf node
decreasing_by
  all_goals simp_wf
  all_goals try omega
  all_goals
    first
    | (have hb : 0 < sizeOf body := by cases body <;> simp_arith
       omega)
    | (have hr : 0 < sizeOf requireds := by cases requireds <;> simp_arith
       omega)

/-- `AstInstaller::install_statements`. -/
def installStatements (st : InstallState) (stmts : List Node) : InstallState :=
  match stmts with
  | [] => st
  | stmt :: rest => installStatements (installNode st stmt).1 rest
termination_by sizeOf stmts
decreasing_by all_goals (simp_wf; try omega)

/-- The element walk of `install_array_literal_elements`: install each
element and gather the types visible on its vertex or source (the
`HashSet` accumulation is modelled by the list, condensed by
`arrayLiteralType`). -/
def installArrayElems (st : InstallState) (elems : List Node) : InstallState × List Ty :=
  match elems with
  | [] => (st, [])
  | e :: rest =>
      let p := installNode st e
      let q : InstallState × List Ty :=
        p.2.elim (p.1, []) fun vtx =>
          match p.1.genv.get_source vtx with
          | some s => (p.1, [s.ty])
          | none =>
              match p.1.genv.get_vertex vtx with
              | some v => (p.1, v.typeKeys)
              | none => (p.1, [])
      let r := installArrayElems q.1 rest
      (r.1, q.2 ++ r.2)
termination_by sizeOf elems
decreasing_by all_goals (simp_wf; try omega)

/-- The optional-parameter loop of `AstInstaller::install_parameters`:
evaluate the default, wire it into the parameter, fall back to the
required-parameter logic when the default yields no vertex. -/
def installOptionals (st : InstallState) (opts : List (String × Node)) : InstallState :=
  match opts with
  | [] => st
  | (name, default_value) :: rest =>
      let p := installNode st default_value
      let st2 : InstallState :=
        p.2.elim
          (let q := install_required_parameter p.1.genv p.1.lenv name
           { p.1 with genv := q.2.1, lenv := q.2.2 })
          (fun default_vtx =>
            let q := install_optional_parameter p.1.genv p.1.lenv name default_vtx
            { p.1 with genv := q.2.1, lenv := q.2.2 })
      installOptionals st2 rest
termination_by sizeOf opts
decreasing_by all_goals (simp_wf; try omega)

/-- The optional-parameter loop of
`install_block_parameters_with_vtxs`, additionally collecting the
parameter vertices. -/
def installBlockOptionals (st : InstallState) (opts : List (String × Node)) :
    InstallState × List VertexId :=
  match opts with
  | [] => (st, [])
  | (name, default_value) :: rest =>
      let p := installNode st default_value
      let q : InstallState × VertexId :=
        p.2.elim
          (let r := install_required_parameter p.1.genv p.1.lenv name
           ({ p.1 with genv := r.2.1, lenv := r.2.2 }, r.1))
          (fun default_vtx =>
            let r := install_optional_parameter p.1.genv p.1.lenv name default_vtx
            ({ p.1 with genv := r.2.1, lenv := r.2.2 }, r.1))
      let s := installBlockOptionals q.1 rest
      (s.1, q.2 :: s.2)
termination_by sizeOf opts
decreasing_by all_goals (simp_wf; try omega)

/-- `AstInstaller::install_parameters`: requireds, then optionals, then the
rest and keyword-rest parameters. -/
def installParameters (st : InstallState) (requireds : List String)
    (optionals : List (String × Node)) (rest kwrest : Option String) : InstallState :=
  let st1 := requireds.foldl (fun acc name => (stRequiredParam acc name).1) st
  let st2 := installOptionals st1 optionals
  let st3 : InstallState :=
    match rest with
    | some name =>
        let q := install_rest_parameter st2.genv st2.lenv name
        { st2 with genv := q.2.1, lenv := q.2.2 }
    | none => st2
  match kwrest with
  | some name =>
      let q := install_keyword_rest_parameter st3.genv st3.lenv name
      { st3 with genv := q.2.1, lenv := q.2.2 }
  | none => st3
termination_by sizeOf optionals + 1
decreasing_by all_goals (simp_wf; try omega)

/-- `AstInstaller::install_block_node_with_params`: enter the block frame,
install the block parameters (collecting their vertices), walk the body,
exit the frame. -/
def installBlockNodeWithParams (st : InstallState) (requireds : List String)
    (optionals : List (String × Node)) (rest : Option String) (body : List Node) :
    InstallState × List VertexId :=
  let st1 : InstallState := { st with genv := enter_block_scope st.genv }
  let p1 : InstallState × List VertexId :=
    requireds.foldl
      (fun acc name =>
        let q := install_block_parameter acc.1.genv acc.1.lenv name
        ({ acc.1 with genv := q.2.1, lenv := q.2.2 }, acc.2 ++ [q.1]))
      (st1, [])
  let p2 := installBlockOptionals p1.1 optionals
  let vtxs2 := p1.2 ++ p2.2
  let p3 : InstallState × List VertexId :=
    match rest with
    | some name =>
        let q := install_rest_parameter p2.1.genv p2.1.lenv name
        ({ p2.1 with genv := q.2.1, lenv := q.2.2 }, vtxs2 ++ [q.1])
    | none => (p2.1, vtxs2)
  let st4 := installStatements p3.1 body
  ({ st4 with genv := exit_block_scope st4.genv }, p3.2)
termination_by sizeOf optionals + sizeOf body + 1
decreasing_by all_goals (simp_wf; try omega)

end

/-- `AstInstaller::finish` composed with the drain: commit the producer's
change set and run the ready boxes. -/
def InstallState.finish (st : InstallState) : GlobalEnv :=
  (st.genv.apply_changes st.changes).run_all

/-- `FileChecker::check_file`, graph part: one fresh `LocalEnv` for the
whole file, the statements walked in order, then `finish`. -/
def check_statements (genv : GlobalEnv) (stmts : List Node) : GlobalEnv :=
  (installStatements ⟨genv, LocalEnv.new, ChangeSet.new⟩ stmts).finish

/-! Observation predicates and specification-side definitions used by the
theorems. -/

/-- The provenance set a vertex stores for a type key. -/
def Vertex.provOf (v : Vertex) (t : Ty) : List VertexId :=
  (lookupA v.types t).getD []

/-- Vertex-type observation: type `t` is present on vertex `id`. -/
def hasType (g : GlobalEnv) (id : VertexId) (t : Ty) : Prop :=
  ∃ v, g.get_vertex id = some v ∧ t ∈ v.typeKeys

/-- State order of the monotonicity claims: every `(vertex, type)` entry of
`g` is still present in `g'`. -/
def typesSub (g g' : GlobalEnv) : Prop :=
  ∀ id t, hasType g id t → hasType g' id t

/-- Equality of every environment field except the vertex arena: the shape
of the statement that propagation touches nothing but vertices. -/
def eqExceptVertices (g g' : GlobalEnv) : Prop :=
  g'.sources = g.sources ∧ g'.boxes = g.boxes ∧ g'.run_queue = g.run_queue ∧
  g'.run_queue_set = g.run_queue_set ∧ g'.methods = g.methods ∧
  g'.type_errors = g.type_errors ∧ g'.scope_manager = g.scope_manager ∧
  g'.next_vertex_id = g.next_vertex_id ∧ g'.next_box_id = g.next_box_id

/-- The climb shared by the instance-variable read and write paths: follow
parents until the first `Class` frame (all other frame kinds, `Module`
included, are climbed through). -/
def ScopeManager.nearestClassAux (sm : ScopeManager) :
    Nat → Option ScopeId → Option ScopeId
  | 0, _ => none
  | _, none => none
  | fuel + 1, some scope_id =>
      match lookupA sm.scopes scope_id with
      | none => none
      | some scope =>
          match scope.kind with
          | .classScope _ _ => some scope_id
          | _ => ScopeManager.nearestClassAux sm fuel scope.parent

/-- The nearest enclosing class frame of the current scope. -/
def ScopeManager.nearest_class_frame (sm : ScopeManager) : Option ScopeId :=
  sm.nearestClassAux (sm.scopes.length + 1) (some sm.current_scope)

/-- The instance-variable entry a given frame holds for a name. -/
def ScopeManager.classFrameIvar (sm : ScopeManager) (sid : ScopeId) (name : String) :
    Option VertexId :=
  (lookupA sm.scopes sid).bind fun sc => sc.get_instance_var name

/-- The type-variable substitution table in the words of the (amended)
specification: `Elem`/`T`/`Element` take argument 0 on every generic
receiver, `K`/`Key` argument 0 and `V`/`Value` argument 1 on `Hash`;
anything else, or a non-generic receiver, has no mapping. -/
def specTypeVariableMapping (recv_ty : Ty) (name : String) : Option Ty :=
  match recv_ty with
  | .generic class_name args =>
      if name = "Elem" || name = "T" || name = "Element" then args.get? 0
      else if class_name = "Hash" && (name = "K" || name = "Key") then args.get? 0
      else if class_name = "Hash" && (name = "V" || name = "Value") then args.get? 1
      else none
  | _ => none

/-- The block-parameter assignments mandated by §4.D.2 for one receiver
type: pair the declared types with the parameter vertices; a type-variable
name is substituted through the mapping (skipped when the substitution
fails); every other declared type is assigned as-is. -/
def specBlockParamTargets (recv_ty : Ty) (param_types : List Ty)
    (block_param_vtxs : List VertexId) : List (Ty × VertexId) :=
  (param_types.zip block_param_vtxs).filterMap fun pv =>
    match pv.1 with
    | .instanceType n =>
        if is_type_variable_name n then
          (specTypeVariableMapping recv_ty n).map fun r => (r, pv.2)
        else some (pv.1, pv.2)
    | _ => some (pv.1, pv.2)

/-- Sequentially allocate one fresh source per mandated `(type, vertex)`
target and wire it to the parameter vertex: the effect §4.D.2 prescribes
for one receiver type's worth of block-parameter assignments. -/
def specAssignTargets : List (Ty × VertexId) → GlobalEnv → ChangeSet →
    GlobalEnv × ChangeSet
  | [], g, cs => (g, cs)
  | (t, v) :: rest, g, cs =>
      let p := g.new_source t
      specAssignTargets rest p.2 (cs.add_edge p.1 v)

/-- Local-environment domain preservation: every name the flat map resolves
before an installer step is still resolvable after it (entries are
overwritten in place but never removed). -/
def lenvKeeps (l1 l2 : LocalEnv) : Prop :=
  ∀ name : String, (l1.get_var name).isSome → (l2.get_var name).isSome

/-- The two-method program whose second body reads the first body's local:
`def a; x = 1; end  def b; y = x; end`. -/
def progC10 : List Node :=
  [ .defNode "a" [] [] none none [ .localVarWrite "x" .integerLit ],
    .defNode "b" [] [] none none [ .localVarWrite "y" (.localVarRead "x") ] ]

end Methodray

/-! Theorems. -/

namespace Methodray

theorem lookupA_insertA {α β : Type} [DecidableEq α] (l : List (α × β)) (key q : α) (v : β) :
    lookupA (insertA l key v) q = if key = q then some v else lookupA l q := by
  induction l with
  | nil => by_cases h : key = q <;> simp [insertA, lookupA, h]
  | cons hd tl ih =>
      obtain ⟨k, w⟩ := hd
      by_cases hk : k = key <;> by_cases hq : key = q <;>
        simp_all [insertA, lookupA]

theorem lookupA_append_single {α β : Type} [DecidableEq α] (l : List (α × β)) (key q : α) (v : β) :
    lookupA (l ++ [(key, v)]) q =
      match lookupA l q with
      | some w => some w
      | none => if key = q then some v else none := by
  induction l with
  | nil => simp [lookupA]
  | cons hd tl ih =>
      obtain ⟨k, w⟩ := hd
      by_cases hk : k = q <;> simp_all [lookupA]

/-- C3: the claim reads "whenever the driver applies a box's change-set,
every `BoxId` placed in that change-set via `reschedule` is appended to the
ready queue".  In the code `GlobalEnv::apply_changes` consumes only the
edge updates of `ChangeSet::reinstall` and never calls
`take_reschedule_boxes` (which has no caller anywhere), so the reschedule
list is discarded: `apply_changes` is insensitive to it (first conjunct),
and on the concrete drain of a single method-call box over an empty
receiver the box asks to be rescheduled, yet the drain ends with an empty
queue, the box run only once (its counter at 1, not at the retry bound)
and nothing recorded. -/
theorem C3_reschedule_list_dropped :
    (∀ (g : GlobalEnv) (cs : ChangeSet) (bs : List BoxId),
        g.apply_changes { cs with reschedule_boxes := bs } = g.apply_changes cs) ∧
    (GlobalEnv.run_all
        ⟨[(0, Vertex.new 0), (1, Vertex.new 1)], [],
          [(0, .methodCall 0 0 "foo" 1 none 0)], [0], [0], [], [],
          ScopeManager.new, 2, 1⟩
      = ⟨[(0, Vertex.new 0), (1, Vertex.new 1)], [],
          [(0, .methodCall 0 0 "foo" 1 none 1)], [], [], [], [],
          ScopeManager.new, 2, 1⟩) := by
  refine ⟨fun g cs bs => rfl, by decide⟩

/-- C7 counterexample: the claim reads "each stored printed type form is
deserialized back into the type algebra by a parser that handles ...
generic forms `Name[..]` ...; in particular `"Array[Integer]"` deserializes
to the Generic type with base `Array` and argument `Integer`".  The
driver's cache-load path deserializes via
`SerializableMethodInfo::return_type`, which wraps the stored string
verbatim in an `Instance` type, and even `RbsTypeConverter::parse` has no
`Name[..]` case, so `"Array[Integer]"` comes back as
`Instance("Array[Integer]")` on both paths, and `"String | Integer"` is
not a union on the driver path. -/
theorem C7_counterexample_driver_not_parsing :
    SerializableMethodInfo.return_type ⟨"Array", "first", "Array[Integer]", none⟩
        = Ty.instanceType "Array[Integer]" ∧
    Ty.instanceType "Array[Integer]" ≠ Ty.array_of Ty.integer ∧
    SerializableMethodInfo.return_type ⟨"Object", "foo", "String | Integer", none⟩
        = Ty.instanceType "String | Integer" ∧
    RbsTypeConverter.parse "Array[Integer]" = Ty.instanceType "Array[Integer]" := by
  refine ⟨rfl, by decide, rfl, by decide⟩

/-- C7 amended: when the driver populates the registry from the cache each
record is stored under `(Instance(receiver_class), method_name)` with its
return type deserialized verbatim as `Instance(return_type_str)` (no
parsing of generic or union forms on this path); the separate
`RbsTypeConverter::parse` handles simple names, top-level unions `A | B`,
and the keywords `nil`, `void`, `untyped` and `bool` — but not `Name[..]`:
`"String | Integer"` parses to the union, while `"Array[Integer]"` stays a
plain instance name on both paths. -/
theorem C7_amended_cache_deserialization :
    (∀ (g : GlobalEnv) (r : SerializableMethodInfo),
        (load_rbs_from_cache g [r]).resolve_method
            (.instanceType r.receiver_class) r.method_name
          = some ⟨.instanceType r.return_type_str, none⟩) ∧
    RbsTypeConverter.parse "String | Integer" = Ty.union [Ty.string, Ty.integer] ∧
    RbsTypeConverter.parse_single "nil" = Ty.nil ∧
    RbsTypeConverter.parse_single "void" = Ty.nil ∧
    RbsTypeConverter.parse_single "untyped" = Ty.bot ∧
    RbsTypeConverter.parse "bool"
      = Ty.union [.instanceType "TrueClass", .instanceType "FalseClass"] := by
  refine ⟨fun g r => ?_, by decide, by decide, by decide, by decide, by decide⟩
  simp [load_rbs_from_cache, GlobalEnv.register_builtin_method, GlobalEnv.resolve_method,
    SerializableMethodInfo.return_type, lookupA_insertA]

/-- C8 counterexample: the claim reads "type equality and hashing treat
`Union` as an unordered duplicate-free set: for every two member lists
that are permutations of each other, the two Union types are equal".  The
Rust `Type` derives `PartialEq`/`Eq`/`Hash`, so `Union(Vec<Type>)` compares
its member vectors in order: the two permuted unions below are unequal. -/
theorem C8_counterexample_union_order_sensitive :
    List.Perm [Ty.string, Ty.integer] [Ty.integer, Ty.string] ∧
    Ty.union [Ty.string, Ty.integer] ≠ Ty.union [Ty.integer, Ty.string] := by
  exact ⟨by decide, by decide⟩

/-- C8 amended: `Union` equality is structural in the (ordered) member
list, and the union constructed by the array-literal installation site is
built from the deduplicated set of collected element types exactly when
that set has at least two members — so that constructed member list is
duplicate-free with at least two entries (an element type that is itself a
union can still sit inside it). -/
theorem C8_amended_union_structure :
    (∀ ts us : List Ty, Ty.union ts = Ty.union us ↔ ts = us) ∧
    (∀ l : List Ty, 2 ≤ l.dedup.length →
        arrayLiteralType l = Ty.array_of (Ty.union l.dedup) ∧
        l.dedup.Nodup ∧ 2 ≤ l.dedup.length) ∧
    (∀ l : List Ty, l.dedup = [] → arrayLiteralType l = Ty.array) ∧
    (∀ (l : List Ty) (t : Ty), l.dedup = [t] → arrayLiteralType l = Ty.array_of t) := by
  refine ⟨fun ts us => ⟨fun h => Ty.union.inj h, fun h => h ▸ rfl⟩, fun l hl => ?_,
    fun l hl => ?_, fun l t hl => ?_⟩
  · unfold arrayLiteralType
    match hd : l.dedup with
    | [] => rw [hd] at hl; simp at hl
    | [t] => rw [hd] at hl; simp at hl
    | t1 :: t2 :: ts =>
        refine ⟨rfl, ?_, ?_⟩
        · rw [← hd]; exact List.nodup_dedup l
        · simp
  · unfold arrayLiteralType; rw [hl]
  · unfold arrayLiteralType; rw [hl]

/-- C8 witness: the amended statement evaluated at the mixed literal list
`[String, Integer]`. -/
theorem C8_amended_union_structure_witness :
    arrayLiteralType [Ty.string, Ty.integer]
        = Ty.array_of (Ty.union [Ty.string, Ty.integer]) ∧
    [Ty.string, Ty.integer].Nodup := by
  have h := C8_amended_union_structure.2.1 [Ty.string, Ty.integer] (by decide)
  refine ⟨?_, by decide⟩
  have hd : [Ty.string, Ty.integer].dedup = [Ty.string, Ty.integer] := by decide
  rw [h.1, hd]

theorem methodCallLoop_spec (m : String) (loc : Option SourceLocation) (ret : VertexId) :
    ∀ (tys : List Ty) (g : GlobalEnv) (cs : ChangeSet),
      (methodCallLoop m loc ret g cs tys).1.type_errors
          = g.type_errors ++ ((tys.filter fun t => (g.resolve_method t m).isNone).map
              fun t => ⟨t, m, loc⟩) ∧
      (methodCallLoop m loc ret g cs tys).1.run_queue = g.run_queue ∧
      (methodCallLoop m loc ret g cs tys).1.vertices = g.vertices ∧
      (methodCallLoop m loc ret g cs tys).1.methods = g.methods ∧
      (methodCallLoop m loc ret g cs tys).2.reschedule_boxes = cs.reschedule_boxes := by
  intro tys
  induction tys with
  | nil => intro g cs; simp [methodCallLoop]
  | cons t rest ih =>
      intro g cs
      match hres : g.resolve_method t m with
      | some info =>
          have ih' := ih (g.new_source info.return_type).2
            (cs.add_edge (g.new_source info.return_type).1 ret)
          simp only [methodCallLoop, hres]
          have hrw : (rest.filter fun t' =>
                ((g.new_source info.return_type).2.resolve_method t' m).isNone)
              = rest.filter fun t' => (g.resolve_method t' m).isNone := rfl
          refine ⟨?_, ?_, ?_, ?_, ?_⟩
          · rw [ih'.1, hrw]
            have hf : ((t :: rest).filter fun t' => (g.resolve_method t' m).isNone)
                = rest.filter fun t' => (g.resolve_method t' m).isNone := by
              simp [List.filter_cons, hres]
            rw [hf]
            rfl
          · rw [ih'.2.1]
            rfl
          · rw [ih'.2.2.1]
            rfl
          · rw [ih'.2.2.2.1]
            rfl
          · rw [ih'.2.2.2.2]
            simp [ChangeSet.add_edge]
      | none =>
          have ih' := ih (g.record_type_error t m loc) cs
          simp only [methodCallLoop, hres]
          have hrw : (rest.filter fun t' =>
                ((g.record_type_error t m loc).resolve_method t' m).isNone)
              = rest.filter fun t' => (g.resolve_method t' m).isNone := rfl
          refine ⟨?_, ?_, ?_, ?_, ?_⟩
          · rw [ih'.1, hrw]
            have hf : ((t :: rest).filter fun t' => (g.resolve_method t' m).isNone)
                = t :: (rest.filter fun t' => (g.resolve_method t' m).isNone) := by
              simp [List.filter_cons, hres]
            rw [hf]
            show (g.type_errors ++ [⟨t, m, loc⟩]) ++ _ = _
            simp
          · rw [ih'.2.1]
            rfl
          · rw [ih'.2.2.1]
            rfl
          · rw [ih'.2.2.2.1]
            rfl
          · rw [ih'.2.2.2.2]

/-- C4 counterexample: the claim reads "the method resolution performed
when a method-call box runs first tries the exact key `(t, m)`; when `t` is
`Generic(name, args)` and the exact key is absent, it falls back to
`(Instance(name), m)`, and an undefined-method diagnostic is recorded only
if that fallback also misses".  `MethodCallBox::run` resolves through
`GlobalEnv::resolve_method`, which performs only the exact lookup in the
environment's own method table — the fallback lives solely in
`MethodRegistry::resolve`, which the box path never consults.  Below,
`Array#first` is registered under the base key `Instance("Array")`, the
receiver holds `Array[Integer]`, the registry-style fallback hits — and the
box still records an undefined-method diagnostic for `Array[Integer]`. -/
theorem C4_counterexample_no_fallback_in_box_path :
    (RBox.run (.methodCall 0 0 "first" 1 none 0)
        ⟨[(0, ⟨0, [(Ty.array_of Ty.integer, [9])], []⟩)], [], [], [], [],
          [((Ty.array, "first"), ⟨Ty.string, none⟩)], [], ScopeManager.new, 2, 1⟩
        ChangeSet.new).2.1.type_errors
      = [⟨Ty.array_of Ty.integer, "first", none⟩] ∧
    MethodRegistry.resolve ⟨[((Ty.array, "first"), ⟨Ty.string, none⟩)]⟩
        (Ty.array_of Ty.integer) "first" = some ⟨Ty.string, none⟩ := by
  exact ⟨by decide, by decide⟩

/-- C4 amended: `MethodRegistry::resolve` tries the exact key first and,
for a `Generic(name, args)` receiver whose exact key is absent, falls back
to `(Instance(name), m)`; but the resolution performed when a method-call
box runs is `GlobalEnv::resolve_method`, the exact lookup alone, so the box
records an undefined-method diagnostic for exactly those receiver types
whose exact key is missing from the environment's method table — even when
the base-class key is present. -/
theorem C4_amended_fallback_only_in_registry :
    (∀ (reg : MethodRegistry) (t : Ty) (m : String) (i : MethodInfo),
        lookupA reg.methods (t, m) = some i → reg.resolve t m = some i) ∧
    (∀ (reg : MethodRegistry) (n : String) (args : List Ty) (m : String),
        lookupA reg.methods (.generic n args, m) = none →
        reg.resolve (.generic n args) m = lookupA reg.methods (.instanceType n, m)) ∧
    (∀ (g : GlobalEnv) (id recv ret : VertexId) (m : String)
        (loc : Option SourceLocation) (cnt : Nat) (v : Vertex),
        g.get_vertex recv = some v → v.typeKeys ≠ [] →
        (RBox.run (.methodCall id recv m ret loc cnt) g ChangeSet.new).2.1.type_errors
          = g.type_errors ++ ((v.typeKeys.filter fun t => (g.resolve_method t m).isNone).map
              fun t => ⟨t, m, loc⟩)) := by
  refine ⟨fun reg t m i h => ?_, fun reg n args m h => ?_, fun g id recv ret m loc cnt v hv hne => ?_⟩
  · simp [MethodRegistry.resolve, h]
  · simp [MethodRegistry.resolve, h]
  · have hsnap : recvSnapshot g recv = some v.typeKeys := by
      simp [recvSnapshot, hv]
    simp only [RBox.run, hsnap]
    rw [if_neg (by simpa [List.isEmpty_iff] using hne)]
    exact (methodCallLoop_spec m loc ret v.typeKeys g ChangeSet.new).1

/-- C4 witness: the amended statement applied at the counterexample's
inputs — the registry with `Array#first` under the base key, the receiver
vertex holding `Array[Integer]`. -/
theorem C4_amended_fallback_only_in_registry_witness :
    MethodRegistry.resolve ⟨[((Ty.array, "first"), ⟨Ty.string, none⟩)]⟩ Ty.array "first"
        = some ⟨Ty.string, none⟩ ∧
    MethodRegistry.resolve ⟨[((Ty.array, "first"), ⟨Ty.string, none⟩)]⟩
        (Ty.array_of Ty.integer) "first"
        = lookupA [((Ty.array, "first"), (⟨Ty.string, none⟩ : MethodInfo))]
            (Ty.instanceType "Array", "first") ∧
    (RBox.run (.methodCall 0 0 "first" 1 none 0)
        ⟨[(0, ⟨0, [(Ty.array_of Ty.integer, [9])], []⟩)], [], [], [], [],
          [((Ty.array, "first"), ⟨Ty.string, none⟩)], [], ScopeManager.new, 2, 1⟩
        ChangeSet.new).2.1.type_errors
      = [] ++ ((([Ty.array_of Ty.integer].filter fun t =>
          (lookupA [((Ty.array, "first"), (⟨Ty.string, none⟩ : MethodInfo))] (t, "first")).isNone).map
            fun t => ⟨t, "first", none⟩)) := by
  refine ⟨C4_amended_fallback_only_in_registry.1 _ Ty.array "first" ⟨Ty.string, none⟩ (by decide),
    C4_amended_fallback_only_in_registry.2.1 _ "Array" [Ty.integer] "first" (by decide),
    C4_amended_fallback_only_in_registry.2.2 _ 0 0 1 "first" none 0
      ⟨0, [(Ty.array_of Ty.integer, [9])], []⟩ (by decide) (by decide)⟩

/-- C5 counterexample: the claim reads "every undefined-method diagnostic
recorded during analysis names a concrete receiver type, never `Bot`".
`Bot` is ordinarily represented by absence, but nothing stops it from
appearing as an explicit entry of a receiver's type map (the RBS converter
produces `Type::Bot` for `untyped` return types, and propagation inserts it
like any other type); when it does, `MethodCallBox::run` resolves it,
misses, and records a diagnostic whose receiver type is `Bot`. -/
theorem C5_counterexample_bot_diagnostic :
    (RBox.run (.methodCall 0 0 "upcase" 1 none 0)
        ⟨[(0, ⟨0, [(Ty.bot, [9])], []⟩)], [], [], [], [], [], [],
          ScopeManager.new, 2, 1⟩
        ChangeSet.new).2.1.type_errors.map (fun e => e.receiver_type)
      = [Ty.bot] := by decide

/-- C5 amended: a method-call box whose receiver snapshot is empty (the
absence representation of `Bot`) records no diagnostic and emits no edges —
it only re-requests scheduling while its retry counter is below the bound,
and otherwise silently drops; and every diagnostic a run appends names a
type actually present in the receiver's snapshot, which names `Bot` exactly
when `Bot` sits in the receiver's type map explicitly. -/
theorem C5_amended_empty_receiver_is_silent :
    (∀ (g : GlobalEnv) (id recv ret : VertexId) (m : String)
        (loc : Option SourceLocation) (cnt : Nat),
        recvSnapshot g recv = some [] →
        (RBox.run (.methodCall id recv m ret loc cnt) g ChangeSet.new).2.1 = g ∧
        (RBox.run (.methodCall id recv m ret loc cnt) g ChangeSet.new).2.2.new_edges = [] ∧
        (cnt < MAX_RESCHEDULE_COUNT →
            (RBox.run (.methodCall id recv m ret loc cnt) g ChangeSet.new).2.2.reschedule_boxes
              = [id] ∧
            (RBox.run (.methodCall id recv m ret loc cnt) g ChangeSet.new).1
              = .methodCall id recv m ret loc (cnt + 1)) ∧
        (¬ cnt < MAX_RESCHEDULE_COUNT →
            (RBox.run (.methodCall id recv m ret loc cnt) g ChangeSet.new).2.2
              = ChangeSet.new)) ∧
    (∀ (g : GlobalEnv) (id recv ret : VertexId) (m : String)
        (loc : Option SourceLocation) (cnt : Nat) (v : Vertex),
        g.get_vertex recv = some v →
        ∀ e ∈ (RBox.run (.methodCall id recv m ret loc cnt) g ChangeSet.new).2.1.type_errors,
          e ∈ g.type_errors ∨ e.receiver_type ∈ v.typeKeys) := by
  constructor
  · intro g id recv ret m loc cnt hsnap
    simp only [RBox.run, hsnap]
    by_cases hc : cnt < MAX_RESCHEDULE_COUNT
    · simp [hc, ChangeSet.reschedule, ChangeSet.new]
    · simp [hc, ChangeSet.new]
  · intro g id recv ret m loc cnt v hv e he
    have hsnap : recvSnapshot g recv = some v.typeKeys := by
      simp [recvSnapshot, hv]
    simp only [RBox.run, hsnap] at he
    by_cases hemp : v.typeKeys.isEmpty
    · rw [if_pos hemp] at he
      by_cases hc : cnt < MAX_RESCHEDULE_COUNT
      · rw [if_pos hc] at he
        exact Or.inl he
      · rw [if_neg hc] at he
        exact Or.inl he
    · rw [if_neg hemp] at he
      rw [(methodCallLoop_spec m loc ret v.typeKeys g ChangeSet.new).1] at he
      rcases List.mem_append.mp he with h | h
      · exact Or.inl h
      · right
        obtain ⟨t, ht, rfl⟩ := List.mem_map.mp h
        exact List.mem_of_mem_filter ht

/-- C5 witness: the amended statement applied at a box with an empty
receiver vertex and fresh retry counter, and at the `Bot`-carrying
receiver of the counterexample. -/
theorem C5_amended_empty_receiver_is_silent_witness :
    (RBox.run (.methodCall 0 0 "upcase" 1 none 0)
        ⟨[(0, Vertex.new 0)], [], [], [], [], [], [], ScopeManager.new, 2, 1⟩
        ChangeSet.new).2.1
      = ⟨[(0, Vertex.new 0)], [], [], [], [], [], [], ScopeManager.new, 2, 1⟩ ∧
    (∀ e ∈ (RBox.run (.methodCall 0 0 "upcase" 1 none 0)
        ⟨[(0, ⟨0, [(Ty.bot, [9])], []⟩)], [], [], [], [], [], [],
          ScopeManager.new, 2, 1⟩ ChangeSet.new).2.1.type_errors,
        e ∈ ([] : List TypeError) ∨ e.receiver_type ∈ [Ty.bot]) := by
  refine ⟨(C5_amended_empty_receiver_is_silent.1 _ 0 0 1 "upcase" none 0 (by decide)).1, ?_⟩
  have h := C5_amended_empty_receiver_is_silent.2
      ⟨[(0, ⟨0, [(Ty.bot, [9])], []⟩)], [], [], [], [], [], [],
        ScopeManager.new, 2, 1⟩ 0 0 1 "upcase" none 0
      ⟨0, [(Ty.bot, [9])], []⟩ (by decide)
  exact h

theorem addSourceTo_fst (ts : List (Ty × List VertexId)) (ty : Ty) (s : VertexId) :
    (Vertex.addSourceTo ts ty s).map Prod.fst = ts.map Prod.fst := by
  induction ts with
  | nil => rfl
  | cons hd tl ih =>
      obtain ⟨t, srcs⟩ := hd
      by_cases h : t = ty <;> simp [Vertex.addSourceTo, h, ih]

theorem onTypeAddedLoop_spec (src_id : VertexId) :
    ∀ (tys : List Ty) (v : Vertex),
      (v.onTypeAddedLoop src_id tys).1.typeKeys
          = v.typeKeys ++ (v.onTypeAddedLoop src_id tys).2 ∧
      (v.onTypeAddedLoop src_id tys).1.next_vtxs = v.next_vtxs ∧
      ∀ t ∈ (v.onTypeAddedLoop src_id tys).2, t ∈ tys ∧ t ∉ v.typeKeys := by
  intro tys
  induction tys with
  | nil => intro v; simp [Vertex.onTypeAddedLoop]
  | cons ty rest ih =>
      intro v
      by_cases hmem : ty ∈ v.typeKeys
      · have hkeys : ({ v with types := Vertex.addSourceTo v.types ty src_id } : Vertex).typeKeys
            = v.typeKeys := by
          simp [Vertex.typeKeys, addSourceTo_fst]
        have ih' := ih { v with types := Vertex.addSourceTo v.types ty src_id }
        simp only [Vertex.onTypeAddedLoop, if_pos hmem]
        refine ⟨?_, ?_, ?_⟩
        · rw [ih'.1, hkeys]
        · rw [ih'.2.1]
        · intro t ht
          have := ih'.2.2 t ht
          rw [hkeys] at this
          exact ⟨List.mem_cons_of_mem _ this.1, this.2⟩
      · have hkeys : ({ v with types := v.types ++ [(ty, [src_id])] } : Vertex).typeKeys
            = v.typeKeys ++ [ty] := by
          simp [Vertex.typeKeys]
        have ih' := ih { v with types := v.types ++ [(ty, [src_id])] }
        simp only [Vertex.onTypeAddedLoop, if_neg hmem]
        refine ⟨?_, ?_, ?_⟩
        · rw [ih'.1, hkeys]
          simp
        · rw [ih'.2.1]
        · intro t ht
          rcases List.mem_cons.mp ht with rfl | ht'
          · exact ⟨List.mem_cons_self _ _, hmem⟩
          · have := ih'.2.2 t ht'
            rw [hkeys] at this
            refine ⟨List.mem_cons_of_mem _ this.1, fun hc => this.2 (List.mem_append_left _ hc)⟩

theorem on_type_added_spec (v : Vertex) (s : VertexId) (tys : List Ty) :
    (v.on_type_added s tys).1 = (v.onTypeAddedLoop s tys).1 ∧
    ((v.onTypeAddedLoop s tys).2 = [] → (v.on_type_added s tys).2 = []) ∧
    ((v.onTypeAddedLoop s tys).2 ≠ [] →
        (v.on_type_added s tys).2
          = v.next_vtxs.map fun n => (n, (v.onTypeAddedLoop s tys).2)) := by
  by_cases h : (v.onTypeAddedLoop s tys).2 = []
  · simp [Vertex.on_type_added, h, List.isEmpty_iff]
  · simp only [Vertex.on_type_added, List.isEmpty_iff]
    rw [if_neg h]
    refine ⟨rfl, fun hc => absurd hc h, fun _ => ?_⟩
    rw [(onTypeAddedLoop_spec s tys v).2.1]

theorem filter_imp_length_le {α : Type} (p q : α → Bool)
    (U : List α) (h : ∀ a ∈ U, q a = true → p a = true) :
    (U.filter q).length ≤ (U.filter p).length := by
  induction U with
  | nil => simp
  | cons a rest ih =>
      have ih' := ih fun a ha => h a (List.mem_cons_of_mem _ ha)
      by_cases hq : q a
      · have hp := h a (List.mem_cons_self _ _) hq
        simp [List.filter_cons, hq, hp]
        omega
      · by_cases hp : p a <;> simp [List.filter_cons, hq, hp] <;> omega

theorem filter_imp_length_lt {α : Type} (p q : α → Bool)
    (U : List α) (h : ∀ a ∈ U, q a = true → p a = true)
    (a0 : α) (ha0 : a0 ∈ U) (hp : p a0 = true) (hq : q a0 = false) :
    (U.filter q).length < (U.filter p).length := by
  induction U with
  | nil => simp at ha0
  | cons a rest ih =>
      have hle := filter_imp_length_le p q rest fun a ha => h a (List.mem_cons_of_mem _ ha)
      rcases List.mem_cons.mp ha0 with rfl | hmem
      · simp [List.filter_cons, hq, hp]
        omega
      · have ih' := ih (fun a ha => h a (List.mem_cons_of_mem _ ha)) hmem
        by_cases hqa : q a
        · have hpa := h a (List.mem_cons_self _ _) hqa
          simp [List.filter_cons, hqa, hpa]
          omega
        · by_cases hpa : p a <;> simp [List.filter_cons, hqa, hpa] <;> omega

theorem missingOne_congr (U : List Ty) (v w : Vertex) (h : v.typeKeys = w.typeKeys) :
    GlobalEnv.missingOne U v = GlobalEnv.missingOne U w := by
  simp [GlobalEnv.missingOne, h]

theorem missingOne_after_le (U : List Ty) (v : Vertex) (s : VertexId) (tys : List Ty) :
    GlobalEnv.missingOne U (v.onTypeAddedLoop s tys).1 ≤ GlobalEnv.missingOne U v := by
  have hspec := onTypeAddedLoop_spec s tys v
  unfold GlobalEnv.missingOne
  refine filter_imp_length_le _ _ U fun a _ hq => ?_
  rw [hspec.1] at hq
  simp only [decide_eq_true_eq] at *
  intro hc
  exact hq (List.mem_append_left _ hc)

theorem missingOne_after_lt (U : List Ty) (v : Vertex) (s : VertexId) (tys : List Ty)
    (hU : ∀ t ∈ tys, t ∈ U) (hne : (v.onTypeAddedLoop s tys).2 ≠ []) :
    GlobalEnv.missingOne U (v.onTypeAddedLoop s tys).1 < GlobalEnv.missingOne U v := by
  have hspec := onTypeAddedLoop_spec s tys v
  obtain ⟨a0, ha0⟩ : ∃ a, a ∈ (v.onTypeAddedLoop s tys).2 := by
    cases hh : (v.onTypeAddedLoop s tys).2 with
    | nil => exact absurd hh hne
    | cons x xs => exact ⟨x, by simp [hh]⟩
  have hmem := hspec.2.2 a0 ha0
  unfold GlobalEnv.missingOne
  refine filter_imp_length_lt _ _ U (fun a _ hq => ?_) a0 (hU a0 hmem.1) ?_ ?_
  · rw [hspec.1] at hq
    simp only [decide_eq_true_eq] at *
    intro hc
    exact hq (List.mem_append_left _ hc)
  · simpa using hmem.2
  · rw [hspec.1]
    simp [ha0]

theorem sum_insertA (l : List (VertexId × Vertex)) (id : VertexId) (v' v0 : Vertex)
    (h : lookupA l id = some v0) (f : Vertex → Nat) :
    ((insertA l id v').map fun p => f p.2).sum + f v0
      = (l.map fun p => f p.2).sum + f v' := by
  induction l with
  | nil => simp [lookupA] at h
  | cons hd tl ih =>
      obtain ⟨k, w⟩ := hd
      by_cases hk : k = id
      · subst hk
        simp [lookupA] at h
        subst h
        simp [insertA]
        omega
      · simp [lookupA, hk] at h
        have := ih h
        simp [insertA, hk]
        omega

theorem map_insertA_eq (l : List (VertexId × Vertex)) (id : VertexId) (v' v0 : Vertex)
    (h : lookupA l id = some v0) (f : Vertex → Nat) (hf : f v' = f v0) :
    (insertA l id v').map (fun p => f p.2) = l.map fun p => f p.2 := by
  induction l with
  | nil => simp [lookupA] at h
  | cons hd tl ih =>
      obtain ⟨k, w⟩ := hd
      by_cases hk : k = id
      · subst hk
        simp [lookupA] at h
        subst h
        simp [insertA, hf]
      · simp [lookupA, hk] at h
        simp [insertA, hk, ih h]

theorem length_le_foldr_max (l : List (VertexId × Vertex)) (id : VertexId) (v : Vertex)
    (h : lookupA l id = some v) :
    v.next_vtxs.length ≤ (l.map fun p => p.2.next_vtxs.length).foldr Nat.max 0 := by
  induction l with
  | nil => simp [lookupA] at h
  | cons hd tl ih =>
      obtain ⟨k, w⟩ := hd
      by_cases hk : k = id
      · simp [lookupA, hk] at h
        subst h
        simp [Nat.le_max_left]
      · simp [lookupA, hk] at h
        simp
        exact Or.inr (ih h)

theorem length_le_maxOut (g : GlobalEnv) (id : VertexId) (v : Vertex)
    (h : g.get_vertex id = some v) : v.next_vtxs.length ≤ GlobalEnv.maxOut g :=
  length_le_foldr_max g.vertices id v h

theorem propagateAux_sufficient :
    ∀ (fuel : Nat) (U : List Ty) (g : GlobalEnv)
      (wl : List (VertexId × VertexId × List Ty)),
      (∀ it ∈ wl, ∀ t ∈ it.2.2, t ∈ U) →
      GlobalEnv.propMeasure U g wl < fuel →
      (GlobalEnv.propagateAux fuel g wl).isSome := by
  intro fuel
  induction fuel with
  | zero => intro U g wl _ hm; omega
  | succ fuel ih =>
      intro U g wl hinv hm
      match wl with
      | [] => simp [GlobalEnv.propagateAux]
      | (src_id, dst_id, tys) :: rest =>
          simp only [GlobalEnv.propagateAux]
          match hdv : g.get_vertex dst_id with
          | none =>
              apply ih U g rest (fun it hit => hinv it (List.mem_cons_of_mem _ hit))
              unfold GlobalEnv.propMeasure at hm ⊢
              simp only [List.length_cons] at hm
              omega
          | some dstV =>
              have hspecA := on_type_added_spec dstV src_id tys
              have hloop := onTypeAddedLoop_spec src_id tys dstV
              have hUtys : ∀ t ∈ tys, t ∈ U :=
                hinv (src_id, dst_id, tys) (List.mem_cons_self _ _)
              by_cases hadd : (dstV.onTypeAddedLoop src_id tys).2 = []
              · -- nothing new: the worklist just shrinks
                have hprops : (dstV.on_type_added src_id tys).2 = [] := hspecA.2.1 hadd
                have hv1 : (dstV.on_type_added src_id tys).1
                    = (dstV.onTypeAddedLoop src_id tys).1 := hspecA.1
                apply ih U _ _ (fun it hit => hinv it (by simp [hprops] at hit ⊢; exact Or.inr hit))
                have hkeys : (dstV.onTypeAddedLoop src_id tys).1.typeKeys = dstV.typeKeys := by
                  rw [hloop.1, hadd, List.append_nil]
                have hmape := map_insertA_eq g.vertices dst_id
                    (dstV.on_type_added src_id tys).1 dstV hdv
                    (GlobalEnv.missingOne U)
                    (by rw [hv1]; exact missingOne_congr U _ _ hkeys)
                have hmapo := map_insertA_eq g.vertices dst_id
                    (dstV.on_type_added src_id tys).1 dstV hdv
                    (fun v => v.next_vtxs.length)
                    (by show (dstV.on_type_added src_id tys).1.next_vtxs.length
                          = dstV.next_vtxs.length
                        rw [hv1, hloop.2.1])
                unfold GlobalEnv.propMeasure GlobalEnv.missingCount GlobalEnv.maxOut at hm
                unfold GlobalEnv.propMeasure GlobalEnv.missingCount GlobalEnv.maxOut
                     GlobalEnv.setVertex
                simp only [hmape, hmapo, hprops, List.map_nil, List.nil_append,
                  List.length_cons] at hm ⊢
                omega
              · -- at least one new type landed on dst: the missing count drops
                have hprops : (dstV.on_type_added src_id tys).2
                    = dstV.next_vtxs.map (fun n => (n, (dstV.onTypeAddedLoop src_id tys).2)) :=
                  hspecA.2.2 hadd
                have hv1 : (dstV.on_type_added src_id tys).1
                    = (dstV.onTypeAddedLoop src_id tys).1 := hspecA.1
                apply ih U
                · intro it hit t ht
                  rcases List.mem_append.mp hit with hleft | hright
                  · obtain ⟨q, hq, rfl⟩ := List.mem_map.mp hleft
                    rw [hprops] at hq
                    obtain ⟨n, _, rfl⟩ := List.mem_map.mp hq
                    simp only at ht
                    exact hUtys t ((hloop.2.2 t ht).1)
                  · exact hinv it (List.mem_cons_of_mem _ hright) t ht
                · have hsum := sum_insertA g.vertices dst_id
                      (dstV.on_type_added src_id tys).1 dstV hdv (GlobalEnv.missingOne U)
                  have hlt : GlobalEnv.missingOne U (dstV.on_type_added src_id tys).1
                      < GlobalEnv.missingOne U dstV := by
                    rw [hv1]; exact missingOne_after_lt U dstV src_id tys hUtys hadd
                  have hmapo := map_insertA_eq g.vertices dst_id
                      (dstV.on_type_added src_id tys).1 dstV hdv
                      (fun v => v.next_vtxs.length)
                      (by show (dstV.on_type_added src_id tys).1.next_vtxs.length
                            = dstV.next_vtxs.length
                          rw [hv1, hloop.2.1])
                  have hout : dstV.next_vtxs.length ≤ GlobalEnv.maxOut g :=
                    length_le_maxOut g dst_id dstV hdv
                  unfold GlobalEnv.propMeasure GlobalEnv.missingCount GlobalEnv.maxOut at hm
                  unfold GlobalEnv.propMeasure GlobalEnv.missingCount GlobalEnv.maxOut
                       GlobalEnv.setVertex
                  unfold GlobalEnv.maxOut at hout
                  simp only [hmapo, hprops, List.length_append, List.length_map,
                    List.length_cons] at hm ⊢
                  -- abbreviate the two nonlinear products and finish linearly
                  have hstep : ((insertA g.vertices dst_id (dstV.on_type_added src_id tys).1).map
                        fun p => GlobalEnv.missingOne U p.2).sum + 1
                      ≤ (g.vertices.map fun p => GlobalEnv.missingOne U p.2).sum := by
                    omega
                  generalize hM' : ((insertA g.vertices dst_id
                      (dstV.on_type_added src_id tys).1).map
                        fun p => GlobalEnv.missingOne U p.2).sum = M' at *
                  generalize hM : (g.vertices.map fun p => GlobalEnv.missingOne U p.2).sum
                      = M at *
                  generalize hK : (g.vertices.map fun p => p.2.next_vtxs.length).foldr
                      Nat.max 0 = K at *
                  have hmul : M' * (K + 2) + (K + 2) ≤ M * (K + 2) := by
                    have h1 : M' + 1 ≤ M := hstep
                    calc M' * (K + 2) + (K + 2) = (M' + 1) * (K + 2) := by ring
                    _ ≤ M * (K + 2) := Nat.mul_le_mul_right _ h1
                  generalize M' * (K + 2) = A at *
                  generalize M * (K + 2) = B at *
                  omega

theorem mem_wlTys (wl : List (VertexId × VertexId × List Ty)) :
    ∀ it ∈ wl, ∀ t ∈ it.2.2, t ∈ GlobalEnv.wlTys wl := by
  induction wl with
  | nil => simp
  | cons hd tl ih =>
      intro it hit t ht
      rcases List.mem_cons.mp hit with rfl | hmem
      · exact List.mem_append_left _ ht
      · exact List.mem_append_right _ (ih it hmem t ht)

theorem propBound_sufficient (g : GlobalEnv) (wl : List (VertexId × VertexId × List Ty)) :
    (GlobalEnv.propagateAux (GlobalEnv.propBound g wl) g wl).isSome :=
  propagateAux_sufficient _ (GlobalEnv.wlTys wl) g wl (mem_wlTys wl)
    (by unfold GlobalEnv.propBound; omega)

/-- `propagate_types` only rewrites vertices: every other field of the
environment survives propagation unchanged. -/
theorem propagateAux_preserves :
    ∀ (fuel : Nat) (g : GlobalEnv) (wl : List (VertexId × VertexId × List Ty))
      (g' : GlobalEnv), GlobalEnv.propagateAux fuel g wl = some g' →
      g'.sources = g.sources ∧ g'.boxes = g.boxes ∧ g'.run_queue = g.run_queue ∧
      g'.run_queue_set = g.run_queue_set ∧ g'.methods = g.methods ∧
      g'.type_errors = g.type_errors ∧ g'.scope_manager = g.scope_manager ∧
      g'.next_vertex_id = g.next_vertex_id ∧ g'.next_box_id = g.next_box_id := by
  intro fuel
  induction fuel with
  | zero => intro g wl g' h; simp [GlobalEnv.propagateAux] at h
  | succ fuel ih =>
      intro g wl g' h
      match wl with
      | [] =>
          simp [GlobalEnv.propagateAux] at h
          subst h
          exact ⟨rfl, rfl, rfl, rfl, rfl, rfl, rfl, rfl, rfl⟩
      | (src_id, dst_id, tys) :: rest =>
          simp only [GlobalEnv.propagateAux] at h
          cases hdv : g.get_vertex dst_id with
          | none =>
              rw [hdv] at h
              exact ih g rest g' h
          | some dstV =>
              rw [hdv] at h
              simp only [] at h
              have hx := ih (g.setVertex dst_id (dstV.on_type_added src_id tys).1) _ g' h
              exact hx

theorem setVertex_preserves (g : GlobalEnv) (id : VertexId) (v : Vertex) :
    eqExceptVertices g (g.setVertex id v) :=
  ⟨rfl, rfl, rfl, rfl, rfl, rfl, rfl, rfl, rfl⟩

theorem eqExceptVertices_refl (g : GlobalEnv) : eqExceptVertices g g :=
  ⟨rfl, rfl, rfl, rfl, rfl, rfl, rfl, rfl, rfl⟩

theorem eqExceptVertices_trans {g1 g2 g3 : GlobalEnv}
    (h1 : eqExceptVertices g1 g2) (h2 : eqExceptVertices g2 g3) :
    eqExceptVertices g1 g3 := by
  unfold eqExceptVertices at *
  refine ⟨?_, ?_, ?_, ?_, ?_, ?_, ?_, ?_, ?_⟩ <;> simp_all

theorem propagateAux_eqExcept {fuel : Nat} {g : GlobalEnv}
    {wl : List (VertexId × VertexId × List Ty)} {g' : GlobalEnv}
    (h : GlobalEnv.propagateAux fuel g wl = some g') : eqExceptVertices g g' :=
  propagateAux_preserves fuel g wl g' h

theorem addNextIn_eqExcept (g : GlobalEnv) (s d : VertexId) :
    eqExceptVertices g (GlobalEnv.addNextIn g s d) := by
  unfold GlobalEnv.addNextIn
  cases hv : g.get_vertex s
  · exact eqExceptVertices_refl g
  · exact setVertex_preserves g s _

theorem add_edge_eqExcept (g : GlobalEnv) (s d : VertexId) :
    eqExceptVertices g (g.add_edge s d) := by
  unfold GlobalEnv.add_edge
  by_cases hty : (GlobalEnv.srcTypes (GlobalEnv.addNextIn g s d) s).isEmpty
  · simp only [hty, if_true]
    exact addNextIn_eqExcept g s d
  · simp only [hty, if_false]
    cases hp : GlobalEnv.propagateAux
        (GlobalEnv.propBound (GlobalEnv.addNextIn g s d)
          [(s, d, GlobalEnv.srcTypes (GlobalEnv.addNextIn g s d) s)])
        (GlobalEnv.addNextIn g s d)
        [(s, d, GlobalEnv.srcTypes (GlobalEnv.addNextIn g s d) s)] with
    | none => simp only [hp, Option.getD]; exact addNextIn_eqExcept g s d
    | some g2 =>
        simp only [hp, Option.getD]
        exact eqExceptVertices_trans (addNextIn_eqExcept g s d) (propagateAux_eqExcept hp)

theorem applyUpdates_eqExcept :
    ∀ (updates : List EdgeUpdate) (g : GlobalEnv),
      eqExceptVertices g (GlobalEnv.applyUpdates g updates) := by
  intro updates
  induction updates with
  | nil => intro g; exact eqExceptVertices_refl g
  | cons u rest ih =>
      intro g
      match u with
      | .add s d =>
          exact eqExceptVertices_trans (add_edge_eqExcept g s d) (ih (g.add_edge s d))
      | .remove s d => exact ih g

theorem apply_changes_eqExcept (g : GlobalEnv) (cs : ChangeSet) :
    eqExceptVertices g (g.apply_changes cs) :=
  applyUpdates_eqExcept _ g

/-- Neither box kind touches the queue, the queued-set or the box table
when it runs: `MethodCallBox::run` and `BlockParameterTypeBox::run` only
allocate sources and record diagnostics. -/
theorem blockParamAssignLoop_queue (vtxs : List VertexId) (recv_ty : Ty) :
    ∀ (pts : List Ty) (g : GlobalEnv) (cs : ChangeSet) (i : Nat),
      (blockParamAssignLoop vtxs recv_ty g cs i pts).1.run_queue = g.run_queue ∧
      (blockParamAssignLoop vtxs recv_ty g cs i pts).1.boxes = g.boxes ∧
      (blockParamAssignLoop vtxs recv_ty g cs i pts).1.run_queue_set = g.run_queue_set ∧
      (blockParamAssignLoop vtxs recv_ty g cs i pts).1.vertices = g.vertices ∧
      (blockParamAssignLoop vtxs recv_ty g cs i pts).1.type_errors = g.type_errors := by
  intro pts
  induction pts with
  | nil => intro g cs i; simp [blockParamAssignLoop]
  | cons pt rest ih =>
      intro g cs i
      unfold blockParamAssignLoop
      by_cases hi : i < vtxs.length
      · simp only [dif_pos hi]
        cases hr : (match resolve_type_variable pt recv_ty with
          | some resolved => some resolved
          | none =>
            match pt with
            | Ty.instanceType name =>
                if is_type_variable_name name = true then none else some pt
            | x => some pt) with
        | none => exact ih g cs (i + 1)
        | some rt =>
            have := ih (g.new_source rt).2 (cs.add_edge (g.new_source rt).1 (vtxs.get ⟨i, hi⟩)) (i + 1)
            exact this
      · simp only [dif_neg hi]
        exact ih g cs (i + 1)

theorem blockParamTypeLoop_queue (m : String) (vtxs : List VertexId) :
    ∀ (tys : List Ty) (g : GlobalEnv) (cs : ChangeSet),
      (blockParamTypeLoop m vtxs g cs tys).1.run_queue = g.run_queue ∧
      (blockParamTypeLoop m vtxs g cs tys).1.boxes = g.boxes ∧
      (blockParamTypeLoop m vtxs g cs tys).1.run_queue_set = g.run_queue_set ∧
      (blockParamTypeLoop m vtxs g cs tys).1.vertices = g.vertices := by
  intro tys
  induction tys with
  | nil => intro g cs; simp [blockParamTypeLoop]
  | cons t rest ih =>
      intro g cs
      unfold blockParamTypeLoop
      cases hb : (g.resolve_method t m).bind (fun info => info.block_param_types) with
      | none => exact ih g cs
      | some pts =>
          have h1 := blockParamAssignLoop_queue vtxs t pts g cs 0
          have h2 := ih (blockParamAssignLoop vtxs t g cs 0 pts).1
            (blockParamAssignLoop vtxs t g cs 0 pts).2
          refine ⟨?_, ?_, ?_, ?_⟩
          · rw [h2.1, h1.1]
          · rw [h2.2.1, h1.2.1]
          · rw [h2.2.2.1, h1.2.2.1]
          · rw [h2.2.2.2, h1.2.2.2.1]

theorem methodCallLoop_queue (m : String) (loc : Option SourceLocation) (ret : VertexId) :
    ∀ (tys : List Ty) (g : GlobalEnv) (cs : ChangeSet),
      (methodCallLoop m loc ret g cs tys).1.boxes = g.boxes ∧
      (methodCallLoop m loc ret g cs tys).1.run_queue_set = g.run_queue_set := by
  intro tys
  induction tys with
  | nil => intro g cs; simp [methodCallLoop]
  | cons t rest ih =>
      intro g cs
      unfold methodCallLoop
      cases hr : g.resolve_method t m with
      | some info =>
          exact ih (g.new_source info.return_type).2
            (cs.add_edge (g.new_source info.return_type).1 ret)
      | none => exact ih (g.record_type_error t m loc) cs

theorem RBox_run_queue (b : RBox) (g : GlobalEnv) (cs : ChangeSet) :
    (b.run g cs).2.1.run_queue = g.run_queue ∧
    (b.run g cs).2.1.boxes = g.boxes ∧
    (b.run g cs).2.1.run_queue_set = g.run_queue_set := by
  match b with
  | .methodCall id recv m ret loc cnt =>
      simp only [RBox.run]
      cases hs : recvSnapshot g recv with
      | none => exact ⟨rfl, rfl, rfl⟩
      | some tys =>
          simp only []
          by_cases hemp : tys.isEmpty
          · rw [if_pos hemp]
            by_cases hc : cnt < MAX_RESCHEDULE_COUNT
            · rw [if_pos hc]
              exact ⟨rfl, rfl, rfl⟩
            · rw [if_neg hc]
              exact ⟨rfl, rfl, rfl⟩
          · rw [if_neg hemp]
            have h1 := (methodCallLoop_spec m loc ret tys g cs).2.1
            have h2 := methodCallLoop_queue m loc ret tys g cs
            exact ⟨h1, h2.1, h2.2⟩
  | .blockParameterType id recv m vtxs =>
      simp only [RBox.run]
      cases hs : recvSnapshot g recv with
      | none => exact ⟨rfl, rfl, rfl⟩
      | some tys =>
          simp only []
          have h := blockParamTypeLoop_queue m vtxs tys g cs
          exact ⟨h.1, h.2.1, h.2.2.1⟩

theorem runStep_run_queue (g0 : GlobalEnv) (box_id : BoxId) (b : RBox) :
    (GlobalEnv.runStep g0 box_id b).run_queue = g0.run_queue := by
  unfold GlobalEnv.runStep
  rw [(apply_changes_eqExcept _ _).2.2.1]
  show (b.run { g0 with boxes := removeA g0.boxes box_id } ChangeSet.new).2.1.run_queue
      = g0.run_queue
  rw [(RBox_run_queue _ _ _).1]

theorem runAllAux_sufficient :
    ∀ (fuel : Nat) (g : GlobalEnv), g.run_queue.length ≤ fuel →
      (GlobalEnv.runAllAux fuel g).isSome := by
  intro fuel
  induction fuel with
  | zero =>
      intro g h
      have : g.run_queue = [] := List.length_eq_zero.mp (Nat.le_zero.mp h)
      simp [GlobalEnv.runAllAux, this]
  | succ fuel ih =>
      intro g h
      unfold GlobalEnv.runAllAux
      cases hq : g.run_queue with
      | nil => simp
      | cons box_id rest =>
          rw [hq] at h
          simp only [List.length_cons] at h
          simp only []
          cases hb : lookupA
              ({ g with run_queue := rest,
                        run_queue_set := g.run_queue_set.erase box_id } : GlobalEnv).boxes
              box_id with
          | none =>
              apply ih
              show rest.length ≤ fuel
              omega
          | some b =>
              apply ih
              rw [runStep_run_queue]
              show rest.length ≤ fuel
              omega

/-- C1: adding an edge via `add_edge` terminates even when the successor
graph contains cycles, and the driver's box-drain `run_all` terminates.
`add_edge` runs the propagation worklist on the fuel `propBound` computed
from the state; the first conjunct shows that for every store — cyclic
successor graphs included — and every worklist this fuel is never
exhausted, because a step either strictly shrinks the worklist or adds a
type to a vertex that lacked it, and each vertex can gain each type of the
finite universe at most once.  The second conjunct shows the drain
`run_all` (which runs `runAllAux` on the initial queue length) always
completes: the ready queue only shrinks during a drain. -/
theorem C1_propagation_and_drain_terminate :
    (∀ (g : GlobalEnv) (wl : List (VertexId × VertexId × List Ty)),
        (GlobalEnv.propagateAux (GlobalEnv.propBound g wl) g wl).isSome) ∧
    (∀ g : GlobalEnv, (GlobalEnv.runAllAux g.run_queue.length g).isSome) :=
  ⟨fun g wl => propBound_sufficient g wl,
   fun g => runAllAux_sufficient g.run_queue.length g (le_refl _)⟩

theorem get_vertex_setVertex (g : GlobalEnv) (id q : VertexId) (v : Vertex) :
    (g.setVertex id v).get_vertex q = if id = q then some v else g.get_vertex q :=
  lookupA_insertA g.vertices id q v

theorem typesSub_refl (g : GlobalEnv) : typesSub g g := fun _ _ h => h

theorem typesSub_trans {g1 g2 g3 : GlobalEnv}
    (h1 : typesSub g1 g2) (h2 : typesSub g2 g3) : typesSub g1 g3 :=
  fun id t h => h2 id t (h1 id t h)

theorem typesSub_of_vertices_eq {g g' : GlobalEnv} (h : g'.vertices = g.vertices) :
    typesSub g g' := by
  intro id t ⟨v, hv, ht⟩
  exact ⟨v, by rw [GlobalEnv.get_vertex, h]; exact hv, ht⟩

theorem propagateAux_typesSub :
    ∀ (fuel : Nat) (g : GlobalEnv) (wl : List (VertexId × VertexId × List Ty))
      (g' : GlobalEnv), GlobalEnv.propagateAux fuel g wl = some g' → typesSub g g' := by
  intro fuel
  induction fuel with
  | zero => intro g wl g' h; simp [GlobalEnv.propagateAux] at h
  | succ fuel ih =>
      intro g wl g' h
      match wl with
      | [] =>
          simp [GlobalEnv.propagateAux] at h
          subst h
          exact typesSub_refl g
      | (src_id, dst_id, tys) :: rest =>
          simp only [GlobalEnv.propagateAux] at h
          cases hdv : g.get_vertex dst_id with
          | none =>
              rw [hdv] at h
              exact ih g rest g' h
          | some dstV =>
              rw [hdv] at h
              simp only [] at h
              refine @typesSub_trans g (g.setVertex dst_id (dstV.on_type_added src_id tys).1)
                g' ?_ (ih _ _ g' h)
              intro id t hh
              obtain ⟨v, hv, ht⟩ := hh
              by_cases hid : dst_id = id
              · subst hid
                rw [hdv] at hv
                cases hv
                refine ⟨(dstV.on_type_added src_id tys).1, ?_, ?_⟩
                · rw [get_vertex_setVertex]
                  simp
                · rw [(on_type_added_spec dstV src_id tys).1,
                    (onTypeAddedLoop_spec src_id tys dstV).1]
                  exact List.mem_append_left _ ht
              · refine ⟨v, ?_, ht⟩
                rw [get_vertex_setVertex, if_neg hid]
                exact hv

theorem addNextIn_typesSub (g : GlobalEnv) (s d : VertexId) :
    typesSub g (GlobalEnv.addNextIn g s d) := by
  unfold GlobalEnv.addNextIn
  cases hv : g.get_vertex s with
  | none => exact typesSub_refl g
  | some v =>
      intro id t hh
      obtain ⟨w, hw, ht⟩ := hh
      by_cases hid : s = id
      · subst hid
        rw [hv] at hw
        cases hw
        refine ⟨v.add_next d, ?_, ?_⟩
        · rw [get_vertex_setVertex]
          simp
        · unfold Vertex.add_next
          by_cases hmem : d ∈ v.next_vtxs
          · simp only [hmem, if_pos]
            exact ht
          · simp only [hmem, if_neg]
            exact ht
      · refine ⟨w, ?_, ht⟩
        rw [get_vertex_setVertex, if_neg hid]
        exact hw

theorem add_edge_typesSub (g : GlobalEnv) (s d : VertexId) :
    typesSub g (g.add_edge s d) := by
  unfold GlobalEnv.add_edge
  by_cases hty : (GlobalEnv.srcTypes (GlobalEnv.addNextIn g s d) s).isEmpty
  · simp only [hty, if_true]
    exact addNextIn_typesSub g s d
  · simp only [hty, if_false]
    cases hp : GlobalEnv.propagateAux
        (GlobalEnv.propBound (GlobalEnv.addNextIn g s d)
          [(s, d, GlobalEnv.srcTypes (GlobalEnv.addNextIn g s d) s)])
        (GlobalEnv.addNextIn g s d)
        [(s, d, GlobalEnv.srcTypes (GlobalEnv.addNextIn g s d) s)] with
    | none => simp only [hp, Option.getD]; exact addNextIn_typesSub g s d
    | some g2 =>
        simp only [hp, Option.getD]
        exact typesSub_trans (addNextIn_typesSub g s d) (propagateAux_typesSub _ _ _ g2 hp)

theorem applyUpdates_typesSub :
    ∀ (updates : List EdgeUpdate) (g : GlobalEnv),
      typesSub g (GlobalEnv.applyUpdates g updates) := by
  intro updates
  induction updates with
  | nil => intro g; exact typesSub_refl g
  | cons u rest ih =>
      intro g
      match u with
      | .add s d =>
          exact typesSub_trans (add_edge_typesSub g s d) (ih (g.add_edge s d))
      | .remove s d => exact ih g

theorem apply_changes_typesSub (g : GlobalEnv) (cs : ChangeSet) :
    typesSub g (g.apply_changes cs) :=
  applyUpdates_typesSub _ g

theorem RBox_run_typesSub (b : RBox) (g : GlobalEnv) (cs : ChangeSet) :
    typesSub g (b.run g cs).2.1 := by
  match b with
  | .methodCall id recv m ret loc cnt =>
      simp only [RBox.run]
      cases hs : recvSnapshot g recv with
      | none => exact typesSub_refl g
      | some tys =>
          simp only []
          by_cases hemp : tys.isEmpty
          · rw [if_pos hemp]
            by_cases hc : cnt < MAX_RESCHEDULE_COUNT
            · rw [if_pos hc]; exact typesSub_refl g
            · rw [if_neg hc]; exact typesSub_refl g
          · rw [if_neg hemp]
            exact typesSub_of_vertices_eq (methodCallLoop_spec m loc ret tys g cs).2.2.1
  | .blockParameterType id recv m vtxs =>
      simp only [RBox.run]
      cases hs : recvSnapshot g recv with
      | none => exact typesSub_refl g
      | some tys =>
          simp only []
          exact typesSub_of_vertices_eq (blockParamTypeLoop_queue m vtxs tys g cs).2.2.2

theorem runStep_typesSub (g0 : GlobalEnv) (box_id : BoxId) (b : RBox) :
    typesSub g0 (GlobalEnv.runStep g0 box_id b) := by
  intro id t hh
  unfold GlobalEnv.runStep
  apply apply_changes_typesSub _ _ id t
  have h1 : typesSub g0 { g0 with boxes := removeA g0.boxes box_id } :=
    typesSub_of_vertices_eq rfl
  have h2 := RBox_run_typesSub b { g0 with boxes := removeA g0.boxes box_id } ChangeSet.new
  have h3 : typesSub (b.run { g0 with boxes := removeA g0.boxes box_id } ChangeSet.new).2.1
      { (b.run { g0 with boxes := removeA g0.boxes box_id } ChangeSet.new).2.1 with
          boxes := insertA
            (b.run { g0 with boxes := removeA g0.boxes box_id } ChangeSet.new).2.1.boxes
            box_id
            (b.run { g0 with boxes := removeA g0.boxes box_id } ChangeSet.new).1 } :=
    typesSub_of_vertices_eq rfl
  exact h3 id t (h2 id t (h1 id t hh))

theorem runAllAux_typesSub :
    ∀ (fuel : Nat) (g : GlobalEnv) (g' : GlobalEnv),
      GlobalEnv.runAllAux fuel g = some g' → typesSub g g' := by
  intro fuel
  induction fuel with
  | zero =>
      intro g g' h
      simp [GlobalEnv.runAllAux] at h
      exact h.2 ▸ typesSub_refl g
  | succ fuel ih =>
      intro g g' h
      unfold GlobalEnv.runAllAux at h
      cases hq : g.run_queue with
      | nil =>
          rw [hq] at h
          simp only [] at h
          cases h
          exact typesSub_refl g
      | cons box_id rest =>
          rw [hq] at h
          simp only [] at h
          cases hb : lookupA
              ({ g with run_queue := rest,
                        run_queue_set := g.run_queue_set.erase box_id } : GlobalEnv).boxes
              box_id with
          | none =>
              rw [hb] at h
              simp only [] at h
              intro id t hh
              exact ih _ g' h id t hh
          | some b =>
              rw [hb] at h
              simp only [] at h
              intro id t hh
              refine ih _ g' h id t ?_
              apply runStep_typesSub _ box_id b id t
              exact hh

theorem run_all_typesSub (g : GlobalEnv) : typesSub g g.run_all := by
  unfold GlobalEnv.run_all
  cases hr : GlobalEnv.runAllAux g.run_queue.length g with
  | none => simp only [Option.getD]; exact typesSub_refl g
  | some g' =>
      simp only [Option.getD]
      exact runAllAux_typesSub _ g g' hr

theorem addSourceTo_lookup (ts : List (Ty × List VertexId)) (t : Ty) (s : VertexId)
    (srcs : List VertexId) (h : lookupA ts t = some srcs) :
    lookupA (Vertex.addSourceTo ts t s) t
      = some (if s ∈ srcs then srcs else srcs ++ [s]) := by
  induction ts with
  | nil => simp [lookupA] at h
  | cons hd tl ih =>
      obtain ⟨t0, srcs0⟩ := hd
      by_cases ht0 : t0 = t
      · subst ht0
        simp [lookupA] at h
        subst h
        simp [Vertex.addSourceTo, lookupA]
      · simp [lookupA, ht0] at h
        simp [Vertex.addSourceTo, ht0, lookupA, ih h]

theorem addSourceTo_already (ts : List (Ty × List VertexId)) (t : Ty) (s : VertexId)
    (srcs : List VertexId) (h : lookupA ts t = some srcs) (hs : s ∈ srcs) :
    Vertex.addSourceTo ts t s = ts := by
  induction ts with
  | nil => simp [lookupA] at h
  | cons hd tl ih =>
      obtain ⟨t0, srcs0⟩ := hd
      by_cases ht0 : t0 = t
      · subst ht0
        simp [lookupA] at h
        subst h
        simp [Vertex.addSourceTo, hs]
      · simp [lookupA, ht0] at h
        simp [Vertex.addSourceTo, ht0, ih h]

theorem mem_keys_lookup (ts : List (Ty × List VertexId)) (t : Ty)
    (h : t ∈ ts.map Prod.fst) : ∃ srcs, lookupA ts t = some srcs := by
  induction ts with
  | nil => simp at h
  | cons hd tl ih =>
      obtain ⟨t0, srcs0⟩ := hd
      by_cases ht0 : t0 = t
      · subst ht0
        exact ⟨srcs0, by simp [lookupA]⟩
      · simp at h
        rcases h with h | h
        · exact absurd h.symm ht0
        · obtain ⟨srcs, hsrcs⟩ := ih (by simpa using h)
          exact ⟨srcs, by simp [lookupA, ht0, hsrcs]⟩

theorem typeKeys_mem_lookup (v : Vertex) (t : Ty) (h : t ∈ v.typeKeys) :
    ∃ srcs, lookupA v.types t = some srcs :=
  mem_keys_lookup v.types t h

/-- C2: type maps only grow during propagation and the drain, and
re-adding a type already present only records provenance and produces no
downstream work.  Conjuncts: (i) any successful propagation step preserves
every `(vertex, type)` entry; (ii) so does `add_edge`; (iii) committing a
change set; (iv) the whole drain `run_all`; (v) adding a `(type, source)`
pair whose type is already present yields no propagation targets, leaves
the key set unchanged and records the source among the type's provenance;
(vi) adding the very same `(type, source)` pair a second time is a
complete no-op on the vertex. -/
theorem C2_monotone_types_and_idempotent_adds :
    (∀ (fuel : Nat) (g : GlobalEnv) (wl : List (VertexId × VertexId × List Ty))
        (g' : GlobalEnv),
        GlobalEnv.propagateAux fuel g wl = some g' → typesSub g g') ∧
    (∀ (g : GlobalEnv) (s d : VertexId), typesSub g (g.add_edge s d)) ∧
    (∀ (g : GlobalEnv) (cs : ChangeSet), typesSub g (g.apply_changes cs)) ∧
    (∀ g : GlobalEnv, typesSub g g.run_all) ∧
    (∀ (v : Vertex) (s : VertexId) (t : Ty), t ∈ v.typeKeys →
        (v.on_type_added s [t]).2 = [] ∧
        (v.on_type_added s [t]).1.typeKeys = v.typeKeys ∧
        s ∈ (v.on_type_added s [t]).1.provOf t) ∧
    (∀ (v : Vertex) (s : VertexId) (t : Ty), t ∈ v.typeKeys → s ∈ v.provOf t →
        v.on_type_added s [t] = (v, [])) := by
  refine ⟨propagateAux_typesSub, add_edge_typesSub, apply_changes_typesSub,
    run_all_typesSub, fun v s t ht => ?_, fun v s t ht hs => ?_⟩
  · obtain ⟨srcs, hsrcs⟩ := typeKeys_mem_lookup v t ht
    have hred : v.on_type_added s [t]
        = ({ v with types := Vertex.addSourceTo v.types t s }, []) := by
      simp [Vertex.on_type_added, Vertex.onTypeAddedLoop, ht]
    rw [hred]
    refine ⟨rfl, by simp [Vertex.typeKeys, addSourceTo_fst], ?_⟩
    unfold Vertex.provOf
    show s ∈ (lookupA (Vertex.addSourceTo v.types t s) t).getD []
    rw [addSourceTo_lookup v.types t s srcs hsrcs]
    by_cases hin : s ∈ srcs <;> simp [hin]
  · obtain ⟨srcs, hsrcs⟩ := typeKeys_mem_lookup v t ht
    have hsin : s ∈ srcs := by
      unfold Vertex.provOf at hs
      rw [hsrcs] at hs
      simpa using hs
    have hred : v.on_type_added s [t]
        = ({ v with types := Vertex.addSourceTo v.types t s }, []) := by
      simp [Vertex.on_type_added, Vertex.onTypeAddedLoop, ht]
    rw [hred, addSourceTo_already v.types t s srcs hsrcs hsin]

/-- C2 witness: the idempotence conjuncts evaluated on a vertex already
holding `String` from source 5, and monotonicity of `add_edge` on a
concrete two-vertex store. -/
theorem C2_monotone_types_and_idempotent_adds_witness :
    (Vertex.on_type_added ⟨0, [(Ty.string, [5])], []⟩ 7 [Ty.string]).2 = [] ∧
    (Vertex.on_type_added ⟨0, [(Ty.string, [5])], []⟩ 7 [Ty.string]).1.typeKeys
      = [Ty.string] ∧
    Vertex.on_type_added ⟨0, [(Ty.string, [5])], []⟩ 5 [Ty.string]
      = (⟨0, [(Ty.string, [5])], []⟩, []) ∧
    hasType
      (GlobalEnv.add_edge
        ⟨[(0, ⟨0, [(Ty.string, [5])], []⟩), (1, Vertex.new 1)], [], [], [], [], [], [],
          ScopeManager.new, 2, 0⟩ 0 1) 0 Ty.string := by
  refine ⟨(C2_monotone_types_and_idempotent_adds.2.2.2.2.1
      ⟨0, [(Ty.string, [5])], []⟩ 7 Ty.string (by decide)).1,
    (C2_monotone_types_and_idempotent_adds.2.2.2.2.1
      ⟨0, [(Ty.string, [5])], []⟩ 7 Ty.string (by decide)).2.1,
    C2_monotone_types_and_idempotent_adds.2.2.2.2.2
      ⟨0, [(Ty.string, [5])], []⟩ 5 Ty.string (by decide) (by decide),
    C2_monotone_types_and_idempotent_adds.2.1
      ⟨[(0, ⟨0, [(Ty.string, [5])], []⟩), (1, Vertex.new 1)], [], [], [], [], [], [],
        ScopeManager.new, 2, 0⟩ 0 1 0 Ty.string
      ⟨⟨0, [(Ty.string, [5])], []⟩, by decide, by decide⟩⟩

theorem length_insertA_of_lookup {α β : Type} [DecidableEq α]
    (l : List (α × β)) (k : α) (v v' : β) (h : lookupA l k = some v) :
    (insertA l k v').length = l.length := by
  induction l with
  | nil => simp [lookupA] at h
  | cons hd tl ih =>
      obtain ⟨k0, w0⟩ := hd
      by_cases hk : k0 = k
      · simp [insertA, hk]
      · simp [lookupA, hk] at h
        simp [insertA, hk, ih h]

theorem lookupIvarAux_eq_nearest (sm : ScopeManager) (name : String)
    (fuel : Nat) (os : Option ScopeId) :
    ScopeManager.lookupIvarAux sm name fuel os
      = (ScopeManager.nearestClassAux sm fuel os).bind
          fun sid => sm.classFrameIvar sid name := by
  induction fuel generalizing os with
  | zero => simp [ScopeManager.lookupIvarAux, ScopeManager.nearestClassAux]
  | succ fuel ih =>
      cases os with
      | none => simp [ScopeManager.lookupIvarAux, ScopeManager.nearestClassAux]
      | some x =>
          simp only [ScopeManager.lookupIvarAux, ScopeManager.nearestClassAux]
          cases h : lookupA sm.scopes x with
          | none => simp
          | some scope =>
              cases hk : scope.kind with
              | classScope n sup =>
                  simp [hk, ScopeManager.classFrameIvar, h]
              | topLevel => simpa [hk] using ih scope.parent
              | moduleScope n => simpa [hk] using ih scope.parent
              | methodScope n r => simpa [hk] using ih scope.parent
              | block => simpa [hk] using ih scope.parent

theorem setIvarAux_eq_nearest (sm : ScopeManager) (name : String) (vtx : VertexId)
    (fuel : Nat) (os : Option ScopeId) :
    ScopeManager.setIvarAux sm name vtx fuel os
      = (ScopeManager.nearestClassAux sm fuel os).elim sm fun sid =>
          (lookupA sm.scopes sid).elim sm fun sc =>
            { sm with scopes := insertA sm.scopes sid (sc.set_instance_var name vtx) } := by
  induction fuel generalizing os with
  | zero => simp [ScopeManager.setIvarAux, ScopeManager.nearestClassAux]
  | succ fuel ih =>
      cases os with
      | none => simp [ScopeManager.setIvarAux, ScopeManager.nearestClassAux]
      | some x =>
          simp only [ScopeManager.setIvarAux, ScopeManager.nearestClassAux]
          cases h : lookupA sm.scopes x with
          | none => simp
          | some scope =>
              cases hk : scope.kind with
              | classScope n sup => simp [hk, h]
              | topLevel => simpa [hk] using ih scope.parent
              | moduleScope n => simpa [hk] using ih scope.parent
              | methodScope n r => simpa [hk] using ih scope.parent
              | block => simpa [hk] using ih scope.parent

theorem nearestClassAux_lookup (sm : ScopeManager) (fuel : Nat)
    (os : Option ScopeId) (sid : ScopeId)
    (h : ScopeManager.nearestClassAux sm fuel os = some sid) :
    ∃ sc n sup, lookupA sm.scopes sid = some sc ∧ sc.kind = .classScope n sup := by
  induction fuel generalizing os with
  | zero => simp [ScopeManager.nearestClassAux] at h
  | succ fuel ih =>
      cases os with
      | none => simp [ScopeManager.nearestClassAux] at h
      | some x =>
          simp only [ScopeManager.nearestClassAux] at h
          cases hx : lookupA sm.scopes x with
          | none => rw [hx] at h; simp at h
          | some scope =>
              rw [hx] at h
              simp only [] at h
              cases hk : scope.kind with
              | classScope n sup =>
                  rw [hk] at h
                  simp only [] at h
                  simp at h
                  subst h
                  exact ⟨scope, n, sup, hx, hk⟩
              | topLevel =>
                  rw [hk] at h
                  simp only [] at h
                  exact ih scope.parent h
              | moduleScope n =>
                  rw [hk] at h
                  simp only [] at h
                  exact ih scope.parent h
              | methodScope n r =>
                  rw [hk] at h
                  simp only [] at h
                  exact ih scope.parent h
              | block =>
                  rw [hk] at h
                  simp only [] at h
                  exact ih scope.parent h

theorem nearestClassAux_insertA (sm : ScopeManager) (sid : ScopeId) (sc sc' : Scope)
    (hsc : lookupA sm.scopes sid = some sc) (hk : sc'.kind = sc.kind)
    (hp : sc'.parent = sc.parent) (fuel : Nat) (os : Option ScopeId) :
    ScopeManager.nearestClassAux { sm with scopes := insertA sm.scopes sid sc' } fuel os
      = ScopeManager.nearestClassAux sm fuel os := by
  induction fuel generalizing os with
  | zero => simp [ScopeManager.nearestClassAux]
  | succ fuel ih =>
      cases os with
      | none => simp [ScopeManager.nearestClassAux]
      | some x =>
          simp only [ScopeManager.nearestClassAux, lookupA_insertA]
          by_cases hx : sid = x
          · subst hx
            rw [hsc, if_pos rfl]
            simp only []
            rw [hk, hp]
            cases sc.kind <;> simp [ih]
          · rw [if_neg hx]
            cases h : lookupA sm.scopes x with
            | none => simp
            | some scope => cases scope.kind <;> simp [ih]

/-- C9 counterexample: in a method nested inside module `M` (scope chain
method → module → top level, no class frame anywhere), the claim says the
instance-variable write stores into the nearest class/module frame — the
module frame — and a read returns that frame's entry.  In the code both
walks skip module frames and stop only at a `Class` frame, so here the
write is a complete no-op (nothing is stored in any frame) and the
subsequent read returns nothing. -/
theorem C9_counterexample_module_frame_skipped :
    ScopeManager.set_instance_var_in_class
        ⟨[(0, Scope.new 0 .topLevel none),
          (1, Scope.new 1 (.moduleScope "M") (some 0)),
          (2, Scope.new 2 (.methodScope "m" none) (some 1))], 3, 2⟩ "@x" 7
      = ⟨[(0, Scope.new 0 .topLevel none),
          (1, Scope.new 1 (.moduleScope "M") (some 0)),
          (2, Scope.new 2 (.methodScope "m" none) (some 1))], 3, 2⟩ ∧
    ScopeManager.lookup_instance_var
        (ScopeManager.set_instance_var_in_class
          ⟨[(0, Scope.new 0 .topLevel none),
            (1, Scope.new 1 (.moduleScope "M") (some 0)),
            (2, Scope.new 2 (.methodScope "m" none) (some 1))], 3, 2⟩ "@x" 7) "@x"
      = none := by
  decide

/-- C9 (amended): both instance-variable walks climb the parent chain to
the nearest enclosing `Class` frame — module, method and block frames are
all climbed through, so module frames never hold instance variables on
this path.  (i) A read returns exactly that class frame's entry for the
name; (ii) when no class frame encloses the current scope, a write is a
no-op; (iii) when the nearest class frame is `sid` holding scope `sc`, a
write replaces `sid`'s frame by `sc` with the binding added and touches
nothing else; (iv) hence a write followed by a read from the same scope
position yields the written vertex. -/
theorem C9_amended_ivar_walks_stop_at_class_frame :
    (∀ (sm : ScopeManager) (name : String),
        sm.lookup_instance_var name
          = sm.nearest_class_frame.bind fun sid => sm.classFrameIvar sid name) ∧
    (∀ (sm : ScopeManager) (name : String) (vtx : VertexId),
        sm.nearest_class_frame = none →
        sm.set_instance_var_in_class name vtx = sm) ∧
    (∀ (sm : ScopeManager) (name : String) (vtx : VertexId) (sid : ScopeId) (sc : Scope),
        sm.nearest_class_frame = some sid → lookupA sm.scopes sid = some sc →
        sm.set_instance_var_in_class name vtx
          = { sm with scopes := insertA sm.scopes sid (sc.set_instance_var name vtx) }) ∧
    (∀ (sm : ScopeManager) (name : String) (vtx : VertexId) (sid : ScopeId),
        sm.nearest_class_frame = some sid →
        (sm.set_instance_var_in_class name vtx).lookup_instance_var name = some vtx) := by
  have hread : ∀ (sm : ScopeManager) (name : String),
      sm.lookup_instance_var name
        = sm.nearest_class_frame.bind fun sid => sm.classFrameIvar sid name := by
    intro sm name
    exact lookupIvarAux_eq_nearest sm name (sm.scopes.length + 1) (some sm.current_scope)
  have hwrite : ∀ (sm : ScopeManager) (name : String) (vtx : VertexId) (sid : ScopeId)
      (sc : Scope), sm.nearest_class_frame = some sid → lookupA sm.scopes sid = some sc →
      sm.set_instance_var_in_class name vtx
        = { sm with scopes := insertA sm.scopes sid (sc.set_instance_var name vtx) } := by
    intro sm name vtx sid sc hn hsc
    unfold ScopeManager.set_instance_var_in_class
    rw [setIvarAux_eq_nearest]
    rw [show ScopeManager.nearestClassAux sm (sm.scopes.length + 1) (some sm.current_scope)
        = some sid from hn]
    simp [hsc]
  refine ⟨hread, ?_, hwrite, ?_⟩
  · intro sm name vtx hn
    unfold ScopeManager.set_instance_var_in_class
    rw [setIvarAux_eq_nearest]
    rw [show ScopeManager.nearestClassAux sm (sm.scopes.length + 1) (some sm.current_scope)
        = none from hn]
    rfl
  · intro sm name vtx sid hn
    obtain ⟨sc, n, sup, hsc, hck⟩ :=
      nearestClassAux_lookup sm (sm.scopes.length + 1) (some sm.current_scope) sid hn
    rw [hwrite sm name vtx sid sc hn hsc]
    rw [hread]
    have hlen : (insertA sm.scopes sid (sc.set_instance_var name vtx)).length
        = sm.scopes.length :=
      length_insertA_of_lookup sm.scopes sid sc (sc.set_instance_var name vtx) hsc
    have hnear : ScopeManager.nearest_class_frame
        { sm with scopes := insertA sm.scopes sid (sc.set_instance_var name vtx) }
        = some sid := by
      unfold ScopeManager.nearest_class_frame
      simp only [hlen]
      rw [nearestClassAux_insertA sm sid sc (sc.set_instance_var name vtx) hsc rfl rfl]
      exact hn
    rw [hnear]
    simp only [Option.bind_some, ScopeManager.classFrameIvar, lookupA_insertA, if_pos rfl]
    simp [Scope.get_instance_var, Scope.set_instance_var, lookupA_insertA]

/-- C9 witness: the amended theorem applied inside `class C`'s method frame
(the write of `@x ↦ 7` lands in the class frame and the read returns it)
and at top level (no class frame, so the write is a no-op). -/
theorem C9_amended_ivar_walks_stop_at_class_frame_witness :
    (ScopeManager.set_instance_var_in_class
        ⟨[(0, Scope.new 0 .topLevel none),
          (1, Scope.new 1 (.classScope "C" none) (some 0)),
          (2, Scope.new 2 (.methodScope "m" none) (some 1))], 3, 2⟩ "@x" 7).lookup_instance_var
        "@x" = some 7 ∧
    ScopeManager.set_instance_var_in_class ScopeManager.new "@y" 5 = ScopeManager.new := by
  refine ⟨C9_amended_ivar_walks_stop_at_class_frame.2.2.2
      ⟨[(0, Scope.new 0 .topLevel none),
        (1, Scope.new 1 (.classScope "C" none) (some 0)),
        (2, Scope.new 2 (.methodScope "m" none) (some 1))], 3, 2⟩ "@x" 7 1 (by decide),
    C9_amended_ivar_walks_stop_at_class_frame.2.1 ScopeManager.new "@y" 5 (by decide)⟩

theorem resolve_type_variable_eq_spec (ty recv_ty : Ty) :
    resolve_type_variable ty recv_ty
      = match ty with
        | .instanceType n =>
            if is_type_variable_name n then specTypeVariableMapping recv_ty n else none
        | _ => none := by
  cases ty with
  | instanceType n =>
      simp only [resolve_type_variable]
      by_cases htv : is_type_variable_name n
      · rw [if_pos htv, if_pos htv]
        cases recv_ty with
        | generic cn args =>
            simp only [Ty.type_args, Ty.base_class_name, specTypeVariableMapping]
            by_cases hE : n = "Elem" ∨ n = "T" ∨ n = "Element"
            · rcases hE with h | h | h <;> subst h <;>
                by_cases hA : cn = "Array" <;> by_cases hH : cn = "Hash" <;>
                  simp_all
            · by_cases hK : n = "K" ∨ n = "Key"
              · rcases hK with h | h <;> subst h <;>
                  by_cases hH : cn = "Hash" <;> simp_all
              · by_cases hV : n = "V" ∨ n = "Value"
                · rcases hV with h | h <;> subst h <;>
                    by_cases hH : cn = "Hash" <;> simp_all
                · push_neg at hE hK hV
                  obtain ⟨hE1, hE2, hE3⟩ := hE
                  obtain ⟨hK1, hK2⟩ := hK
                  obtain ⟨hV1, hV2⟩ := hV
                  simp [hE1, hE2, hE3, hK1, hK2, hV1, hV2]
        | instanceType m => simp [Ty.type_args, specTypeVariableMapping]
        | singleton m => simp [Ty.type_args, specTypeVariableMapping]
        | nil => simp [Ty.type_args, specTypeVariableMapping]
        | union ts => simp [Ty.type_args, specTypeVariableMapping]
        | bot => simp [Ty.type_args, specTypeVariableMapping]
      · simp [htv]
  | generic cn args => rfl
  | singleton m => rfl
  | nil => rfl
  | union ts => rfl
  | bot => rfl

theorem loopResolvedTy_eq_spec (pt recv : Ty) :
    (match resolve_type_variable pt recv with
     | some resolved => some resolved
     | none =>
         match pt with
         | .instanceType n => if is_type_variable_name n then none else some pt
         | _ => some pt)
      = match pt with
        | .instanceType n =>
            if is_type_variable_name n then specTypeVariableMapping recv n else some pt
        | _ => some pt := by
  rw [resolve_type_variable_eq_spec]
  cases pt with
  | instanceType n =>
      by_cases htv : is_type_variable_name n
      · simp only [htv, if_true]
        cases specTypeVariableMapping recv n <;> simp
      · simp [htv]
  | generic cn args => rfl
  | singleton m => rfl
  | nil => rfl
  | union ts => rfl
  | bot => rfl

theorem blockParamAssignLoop_eq_spec (bpv : List VertexId) (recv : Ty) :
    ∀ (pts : List Ty) (g : GlobalEnv) (cs : ChangeSet) (i : Nat),
    blockParamAssignLoop bpv recv g cs i pts
      = specAssignTargets (specBlockParamTargets recv pts (bpv.drop i)) g cs := by
  intro pts
  induction pts with
  | nil =>
      intro g cs i
      simp [blockParamAssignLoop, specBlockParamTargets, specAssignTargets]
  | cons pt rest ih =>
      intro g cs i
      by_cases h : i < bpv.length
      · have hdrop : bpv.drop i = bpv.get ⟨i, h⟩ :: bpv.drop (i + 1) := by
          rw [List.drop_eq_getElem_cons h]
          rfl
        rw [hdrop]
        simp only [blockParamAssignLoop, dif_pos h]
        rw [loopResolvedTy_eq_spec]
        unfold specBlockParamTargets
        simp only [List.zip_cons_cons, List.filterMap_cons]
        cases pt with
        | instanceType n =>
            simp only []
            by_cases htv : is_type_variable_name n
            · rw [if_pos htv, if_pos htv]
              cases hr : specTypeVariableMapping recv n <;>
                simp [ih, specAssignTargets, specBlockParamTargets]
            · rw [if_neg htv, if_neg htv]
              simp [ih, specAssignTargets, specBlockParamTargets]
        | generic cn args => simp [ih, specAssignTargets, specBlockParamTargets]
        | singleton m => simp [ih, specAssignTargets, specBlockParamTargets]
        | nil => simp [ih, specAssignTargets, specBlockParamTargets]
        | union ts => simp [ih, specAssignTargets, specBlockParamTargets]
        | bot => simp [ih, specAssignTargets, specBlockParamTargets]
      · have hnil : bpv.drop i = [] := List.drop_eq_nil_of_le (Nat.le_of_not_lt h)
        have hnil' : bpv.drop (i + 1) = [] :=
          List.drop_eq_nil_of_le (Nat.le_of_not_lt (fun hlt => h (Nat.lt_of_succ_lt hlt)))
        simp only [blockParamAssignLoop, dif_neg h]
        rw [ih, hnil, hnil']
        simp [specBlockParamTargets]

theorem new_source_type_errors (g : GlobalEnv) (t : Ty) :
    (g.new_source t).2.type_errors = g.type_errors := rfl

theorem blockParamAssignLoop_type_errors (bpv : List VertexId) (recv : Ty) :
    ∀ (pts : List Ty) (g : GlobalEnv) (cs : ChangeSet) (i : Nat),
    (blockParamAssignLoop bpv recv g cs i pts).1.type_errors = g.type_errors := by
  intro pts
  induction pts with
  | nil => intro g cs i; simp [blockParamAssignLoop]
  | cons pt rest ih =>
      intro g cs i
      by_cases h : i < bpv.length
      · simp only [blockParamAssignLoop, dif_pos h]
        cases hr : (match resolve_type_variable pt recv with
            | some resolved => some resolved
            | none =>
                match pt with
                | .instanceType n => if is_type_variable_name n then none else some pt
                | _ => some pt) with
        | none => simp only []; exact ih g cs (i + 1)
        | some rt => simp only []; exact ih _ _ (i + 1)
      · simp only [blockParamAssignLoop, dif_neg h]
        exact ih g cs (i + 1)

theorem blockParamTypeLoop_type_errors (mn : String) (bpv : List VertexId) :
    ∀ (tys : List Ty) (g : GlobalEnv) (cs : ChangeSet),
    (blockParamTypeLoop mn bpv g cs tys).1.type_errors = g.type_errors := by
  intro tys
  induction tys with
  | nil => intro g cs; simp [blockParamTypeLoop]
  | cons recv rest ih =>
      intro g cs
      simp only [blockParamTypeLoop]
      cases hr : (g.resolve_method recv mn).bind (fun info => info.block_param_types) with
      | none => exact ih g cs
      | some pts =>
          simp only []
          rw [ih]
          exact blockParamAssignLoop_type_errors bpv recv pts g cs 0

theorem blockParamBox_run_type_errors (id recv_vtx : Nat) (mn : String)
    (bpv : List VertexId) (g : GlobalEnv) (cs : ChangeSet) :
    ((RBox.blockParameterType id recv_vtx mn bpv).run g cs).2.1.type_errors
      = g.type_errors := by
  simp only [RBox.run]
  cases hr : recvSnapshot g recv_vtx with
  | none => rfl
  | some recv_types =>
      simp only []
      exact blockParamTypeLoop_type_errors mn bpv recv_types g cs

/-- C6 counterexample: the wildcard `Elem`/`T`/`Element` substitution arm
applies to every generic receiver, `Hash` included — the claim reserves it
for containers other than `Hash`, under which a declared `Elem` on a
`Hash[String, Integer]` receiver has no mapping and the parameter is
skipped.  In the code `Elem` on `Hash[String, Integer]` resolves to
argument 0 (`String`), and a block-parameter-typing box therefore wires a
fresh `String`-typed source to the parameter vertex instead of skipping
it. -/
theorem C6_counterexample_elem_on_hash :
    resolve_type_variable (.instanceType "Elem")
        (.generic "Hash" [.instanceType "String", .instanceType "Integer"])
      = some (.instanceType "String") ∧
    (RBox.run (.blockParameterType 0 1 "each" [0])
        ⟨[(0, Vertex.new 0)],
         [(1, ⟨1, .generic "Hash" [.instanceType "String", .instanceType "Integer"]⟩)],
         [], [], [],
         [((.generic "Hash" [.instanceType "String", .instanceType "Integer"], "each"),
            ⟨.nil, some [.instanceType "Elem"]⟩)],
         [], ScopeManager.new, 2, 0⟩ ChangeSet.new).2.2.new_edges = [(2, 0)] ∧
    (RBox.run (.blockParameterType 0 1 "each" [0])
        ⟨[(0, Vertex.new 0)],
         [(1, ⟨1, .generic "Hash" [.instanceType "String", .instanceType "Integer"]⟩)],
         [], [], [],
         [((.generic "Hash" [.instanceType "String", .instanceType "Integer"], "each"),
            ⟨.nil, some [.instanceType "Elem"]⟩)],
         [], ScopeManager.new, 2, 0⟩ ChangeSet.new).2.1.get_source 2
      = some ⟨2, .instanceType "String"⟩ := by
  refine ⟨rfl, ?_, ?_⟩ <;> decide

/-- C6 (amended): (i) the type-variable substitution performed by a
block-parameter-typing box on a declared parameter type t is: for
`t = Instance(n)` with n a type-variable name, the table mapping
`Elem`/`T`/`Element` to generic argument 0 on every generic receiver
(`Hash` included), `K`/`Key` to argument 0 and `V`/`Value` to argument 1 on
`Hash`, and nothing otherwise (in particular every non-generic receiver
fails); for any other t no substitution is attempted.  (ii) One receiver's
worth of the box's assignment loop allocates exactly one fresh source per
mandated `(type, vertex)` target — declared type-variable parameters whose
substitution fails are skipped (no type assigned to their vertex), every
other declared type is assigned as-is.  (iii) A block-parameter-typing box
never records a diagnostic. -/
theorem C6_amended_type_variable_substitution :
    (∀ ty recv_ty : Ty,
        resolve_type_variable ty recv_ty
          = match ty with
            | .instanceType n =>
                if is_type_variable_name n then specTypeVariableMapping recv_ty n
                else none
            | _ => none) ∧
    (∀ (bpv : List VertexId) (recv : Ty) (pts : List Ty) (g : GlobalEnv)
        (cs : ChangeSet),
        blockParamAssignLoop bpv recv g cs 0 pts
          = specAssignTargets (specBlockParamTargets recv pts bpv) g cs) ∧
    (∀ (id recv_vtx : Nat) (mn : String) (bpv : List VertexId) (g : GlobalEnv)
        (cs : ChangeSet),
        ((RBox.blockParameterType id recv_vtx mn bpv).run g cs).2.1.type_errors
          = g.type_errors) := by
  refine ⟨resolve_type_variable_eq_spec, fun bpv recv pts g cs => ?_,
    blockParamBox_run_type_errors⟩
  have h := blockParamAssignLoop_eq_spec bpv recv pts g cs 0
  rwa [List.drop_zero] at h

theorem lenvKeeps_refl (l : LocalEnv) : lenvKeeps l l := fun _ h => h

theorem lenvKeeps_trans {a b c : LocalEnv} (h1 : lenvKeeps a b) (h2 : lenvKeeps b c) :
    lenvKeeps a c := fun n h => h2 n (h1 n h)

theorem lenvKeeps_new_var (l : LocalEnv) (name : String) (v : VertexId) :
    lenvKeeps l (l.new_var name v) := by
  intro q h
  simp only [LocalEnv.get_var, LocalEnv.new_var, lookupA_insertA]
  by_cases hq : name = q <;> simp [hq]
  · simpa [LocalEnv.get_var] using h

theorem foldl_keeps_state {α : Type} (f : InstallState → α → InstallState)
    (hf : ∀ (s : InstallState) (a : α), lenvKeeps s.lenv (f s a).lenv) :
    ∀ (l : List α) (s : InstallState), lenvKeeps s.lenv (l.foldl f s).lenv := by
  intro l
  induction l with
  | nil => intro s; exact lenvKeeps_refl _
  | cons x rest ih =>
      intro s
      simp only [List.foldl_cons]
      exact lenvKeeps_trans (hf s x) (ih (f s x))

theorem foldl_keeps_pair {α β : Type} (f : InstallState × β → α → InstallState × β)
    (hf : ∀ (p : InstallState × β) (a : α), lenvKeeps p.1.lenv (f p a).1.lenv) :
    ∀ (l : List α) (p : InstallState × β), lenvKeeps p.1.lenv (l.foldl f p).1.lenv := by
  intro l
  induction l with
  | nil => intro p; exact lenvKeeps_refl _
  | cons x rest ih =>
      intro p
      simp only [List.foldl_cons]
      exact lenvKeeps_trans (hf p x) (ih (f p x))

mutual

theorem installNode_keeps (st : InstallState) (node : Node) :
    lenvKeeps st.lenv (installNode st node).1.lenv := by
  cases node
  case classNode name body =>
    simp only [installNode]
    exact installStatements_keeps
      { st with genv := (st.genv.enter_class name).2 } body
  case moduleNode name body =>
    simp only [installNode]
    exact installStatements_keeps
      { st with genv := (st.genv.enter_module name).2 } body
  case defNode name requireds optionals rest kwrest body =>
    simp only [installNode]
    exact lenvKeeps_trans
      (installParameters_keeps
        { st with genv := (st.genv.enter_method name).2 } requireds optionals rest kwrest)
      (installStatements_keeps
        (installParameters
          { st with genv := (st.genv.enter_method name).2 } requireds optionals rest kwrest)
        body)
  case blockNode requireds optionals rest body =>
    simp only [installNode]
    exact installBlockNodeWithParams_keeps st requireds optionals rest body
  case ivarRead name =>
    simp only [installNode]
    exact lenvKeeps_refl st.lenv
  case selfNode =>
    simp only [installNode]
    exact lenvKeeps_refl st.lenv
  case localVarRead name =>
    simp only [installNode]
    exact lenvKeeps_refl st.lenv
  case arrayLit elements =>
    simp only [installNode]
    by_cases hemp : elements.isEmpty
    · simp only [hemp, if_true]
      exact lenvKeeps_refl st.lenv
    · simp only [hemp, if_false]
      exact installArrayElems_keeps st elements
  case stringLit =>
    simp only [installNode]
    exact lenvKeeps_refl st.lenv
  case integerLit =>
    simp only [installNode]
    exact lenvKeeps_refl st.lenv
  case floatLit =>
    simp only [installNode]
    exact lenvKeeps_refl st.lenv
  case hashLit =>
    simp only [installNode]
    exact lenvKeeps_refl st.lenv
  case nilLit =>
    simp only [installNode]
    exact lenvKeeps_refl st.lenv
  case trueLit =>
    simp only [installNode]
    exact lenvKeeps_refl st.lenv
  case falseLit =>
    simp only [installNode]
    exact lenvKeeps_refl st.lenv
  case symbolLit =>
    simp only [installNode]
    exact lenvKeeps_refl st.lenv
  case regexpLit =>
    simp only [installNode]
    exact lenvKeeps_refl st.lenv
  case rangeLit =>
    simp only [installNode]
    exact lenvKeeps_refl st.lenv
  case ivarWrite name value =>
    simp only [installNode]
    cases h : (installNode st value).2 with
    | none => simpa using installNode_keeps st value
    | some v => simpa using installNode_keeps st value
  case localVarWrite name value =>
    simp only [installNode]
    cases h : (installNode st value).2 with
    | none => simpa using installNode_keeps st value
    | some v =>
        simp only [Option.elim, install_local_var_write]
        exact lenvKeeps_trans (installNode_keeps st value) (lenvKeeps_new_var _ _ _)
  case callNode receiver mn loc blk =>
    cases blk
    case some b =>
      cases b
      case blockNode reqs opts rst body =>
        simp only [installNode]
        cases h : (installNode st receiver).2 with
        | none => simpa using installNode_keeps st receiver
        | some v =>
            simp only [Option.elim]
            by_cases hemp :
                (installBlockNodeWithParams (installNode st receiver).1 reqs opts rst body).2.isEmpty <;>
              simp only [hemp, if_true, if_false] <;>
              exact lenvKeeps_trans (installNode_keeps st receiver)
                (installBlockNodeWithParams_keeps _ reqs opts rst body)
      all_goals
        simp only [installNode]
        cases h : (installNode st receiver).2 with
        | none => simpa using installNode_keeps st receiver
        | some v => simpa using installNode_keeps st receiver
    case none =>
      simp only [installNode]
      cases h : (installNode st receiver).2 with
      | none => simpa using installNode_keeps st receiver
      | some v => simpa using installNode_keeps st receiver
termination_by sizeOf node
decreasing_by
  all_goals simp_wf
  all_goals try omega
  all_goals
    first
    | (have hb : 0 < sizeOf body := by cases body <;> simp_arith
       omega)
    | (have hr : 0 < sizeOf requireds := by cases requireds <;> simp_arith
       omega)

theorem installStatements_keeps (st : InstallState) (stmts : List Node) :
    lenvKeeps st.lenv (installStatements st stmts).lenv := by
  cases stmts with
  | nil =>
      simp only [installStatements]
      exact lenvKeeps_refl st.lenv
  | cons s rest =>
      simp only [installStatements]
      exact lenvKeeps_trans (installNode_keeps st s)
        (installStatements_keeps (installNode st s).1 rest)
termination_by sizeOf stmts
decreasing_by all_goals (simp_wf; try omega)

theorem installArrayElems_keeps (st : InstallState) (elems : List Node) :
    lenvKeeps st.lenv (installArrayElems st elems).1.lenv := by
  cases elems with
  | nil =>
      simp only [installArrayElems]
      exact lenvKeeps_refl st.lenv
  | cons e rest =>
      simp only [installArrayElems]
      cases h : (installNode st e).2 with
      | none =>
          simpa using lenvKeeps_trans (installNode_keeps st e)
            (installArrayElems_keeps (installNode st e).1 rest)
      | some vtx =>
          simp only [Option.elim]
          cases h2 : (installNode st e).1.genv.get_source vtx with
          | some s =>
              simpa using lenvKeeps_trans (installNode_keeps st e)
                (installArrayElems_keeps (installNode st e).1 rest)
          | none =>
              cases h3 : (installNode st e).1.genv.get_vertex vtx with
              | some v =>
                  simpa using lenvKeeps_trans (installNode_keeps st e)
                    (installArrayElems_keeps (installNode st e).1 rest)
              | none =>
                  simpa using lenvKeeps_trans (installNode_keeps st e)
                    (installArrayElems_keeps (installNode st e).1 rest)
termination_by sizeOf elems
decreasing_by all_goals (simp_wf; try omega)

theorem installOptionals_keeps (st : InstallState) (opts : List (String × Node)) :
    lenvKeeps st.lenv (installOptionals st opts).lenv := by
  cases opts with
  | nil =>
      simp only [installOptionals]
      exact lenvKeeps_refl st.lenv
  | cons pr rest =>
      obtain ⟨name, dv⟩ := pr
      simp only [installOptionals]
      cases h : (installNode st dv).2 with
      | none =>
          simp only [Option.elim, install_required_parameter]
          refine lenvKeeps_trans (installNode_keeps st dv)
            (lenvKeeps_trans ?_ (installOptionals_keeps _ rest))
          exact lenvKeeps_new_var _ _ _
      | some v =>
          simp only [Option.elim, install_optional_parameter]
          refine lenvKeeps_trans (installNode_keeps st dv)
            (lenvKeeps_trans ?_ (installOptionals_keeps _ rest))
          exact lenvKeeps_new_var _ _ _
termination_by sizeOf opts
decreasing_by all_goals (simp_wf; try omega)

theorem installBlockOptionals_keeps (st : InstallState) (opts : List (String × Node)) :
    lenvKeeps st.lenv (installBlockOptionals st opts).1.lenv := by
  cases opts with
  | nil =>
      simp only [installBlockOptionals]
      exact lenvKeeps_refl st.lenv
  | cons pr rest =>
      obtain ⟨name, dv⟩ := pr
      simp only [installBlockOptionals]
      cases h : (installNode st dv).2 with
      | none =>
          simp only [Option.elim, install_required_parameter]
          refine lenvKeeps_trans (installNode_keeps st dv)
            (lenvKeeps_trans ?_ (installBlockOptionals_keeps _ rest))
          exact lenvKeeps_new_var _ _ _
      | some v =>
          simp only [Option.elim, install_optional_parameter]
          refine lenvKeeps_trans (installNode_keeps st dv)
            (lenvKeeps_trans ?_ (installBlockOptionals_keeps _ rest))
          exact lenvKeeps_new_var _ _ _
termination_by sizeOf opts
decreasing_by all_goals (simp_wf; try omega)

theorem installParameters_keeps (st : InstallState) (requireds : List String)
    (optionals : List (String × Node)) (rest kwrest : Option String) :
    lenvKeeps st.lenv (installParameters st requireds optionals rest kwrest).lenv := by
  simp only [installParameters.eq_def]
  cases rest with
  | none =>
      cases kwrest with
      | none =>
          refine lenvKeeps_trans ?_ (installOptionals_keeps _ optionals)
          refine foldl_keeps_state _ ?_ requireds st
          intro s a
          exact lenvKeeps_new_var _ _ _
      | some kname =>
          refine lenvKeeps_trans ?_ (lenvKeeps_new_var _ _ _)
          refine lenvKeeps_trans ?_ (installOptionals_keeps _ optionals)
          refine foldl_keeps_state _ ?_ requireds st
          intro s a
          exact lenvKeeps_new_var _ _ _
  | some rname =>
      cases kwrest with
      | none =>
          refine lenvKeeps_trans ?_ (lenvKeeps_new_var _ _ _)
          refine lenvKeeps_trans ?_ (installOptionals_keeps _ optionals)
          refine foldl_keeps_state _ ?_ requireds st
          intro s a
          exact lenvKeeps_new_var _ _ _
      | some kname =>
          refine lenvKeeps_trans ?_ (lenvKeeps_new_var _ _ _)
          refine lenvKeeps_trans ?_ (lenvKeeps_new_var _ _ _)
          refine lenvKeeps_trans ?_ (installOptionals_keeps _ optionals)
          refine foldl_keeps_state _ ?_ requireds st
          intro s a
          exact lenvKeeps_new_var _ _ _
termination_by sizeOf optionals + 1
decreasing_by all_goals (simp_wf; try omega)

theorem installBlockNodeWithParams_keeps (st : InstallState) (requireds : List String)
    (optionals : List (String × Node)) (rest : Option String) (body : List Node) :
    lenvKeeps st.lenv (installBlockNodeWithParams st requireds optionals rest body).1.lenv := by
  simp only [installBlockNodeWithParams.eq_def]
  cases rest with
  | none =>
      refine lenvKeeps_trans ?_ (installStatements_keeps _ body)
      refine lenvKeeps_trans ?_ (installBlockOptionals_keeps _ optionals)
      refine foldl_keeps_pair _ ?_ requireds
        ({ genv := enter_block_scope st.genv, lenv := st.lenv, changes := st.changes }, [])
      intro p a
      exact lenvKeeps_new_var _ _ _
  | some rname =>
      refine lenvKeeps_trans ?_ (installStatements_keeps _ body)
      refine lenvKeeps_trans ?_ (lenvKeeps_new_var _ _ _)
      refine lenvKeeps_trans ?_ (installBlockOptionals_keeps _ optionals)
      refine foldl_keeps_pair _ ?_ requireds
        ({ genv := enter_block_scope st.genv, lenv := st.lenv, changes := st.changes }, [])
      intro p a
      exact lenvKeeps_new_var _ _ _
termination_by sizeOf optionals + sizeOf body + 1
decreasing_by all_goals (simp_wf; try omega)

end

/-- C10: the producer threads one flat name-to-vertex local map through the
whole file walk.  (i)/(ii) No installer step removes an entry: every name
the map resolves before installing any node (or statement list) still
resolves afterwards — entering and exiting class, module, method and block
scopes included, since none of them touches the map.  (iii) Concretely, for
`def a; x = 1; end  def b; y = x; end` the walk still resolves `x` while
installing `b`'s body: the final map binds both `x` and `y`, and the walk
recorded the edge from `x`'s vertex (1) into `y`'s vertex (2), through
which the completed analysis gives `y` the type `Integer` bound inside the
unrelated method `a`. -/
theorem C10_flat_local_env_never_reset :
    (∀ (st : InstallState) (node : Node),
        lenvKeeps st.lenv (installNode st node).1.lenv) ∧
    (∀ (st : InstallState) (stmts : List Node),
        lenvKeeps st.lenv (installStatements st stmts).lenv) ∧
    (installStatements ⟨GlobalEnv.new, LocalEnv.new, ChangeSet.new⟩ progC10).lenv.locals
      = [("x", 1), ("y", 2)] ∧
    (installStatements ⟨GlobalEnv.new, LocalEnv.new, ChangeSet.new⟩
        progC10).changes.new_edges = [(0, 1), (1, 2)] ∧
    ((installStatements ⟨GlobalEnv.new, LocalEnv.new, ChangeSet.new⟩
          progC10).finish.get_vertex 2).map Vertex.typeKeys = some [Ty.integer] := by
  refine ⟨installNode_keeps, installStatements_keeps, ?_, ?_, ?_⟩ <;>
    · simp only [progC10, InstallState.finish, installStatements, installNode,
        installBlockNodeWithParams, installBlockOptionals, installArrayElems,
        installOptionals, installParameters, stRequiredParam]
      decide
